import Mathlib

/-!
Verification development for the seedmancer schema/data snapshot engine.

This file shallowly embeds the Go source of the repository:
the schema data model (`db` namespace), the dependency orderer
`sortTablesByDependencies` (src/database/mysql.go), the synthetic data
generator (src/database/faker.go), the CSV value codec `processCSVValue`
with its helpers (src/database/postgres.go), the MySQL enum parsing of
`GetSchema` (src/database/mysql.go), and the JSON (de)serialization of the
schema model (src/unnamed/part_001 together with Go `encoding/json`
semantics).

External effects are made explicit:
* randomness / faker draws / clock reads are an oracle (`FakerEnv`),
  one stream indexed by a global call counter;
* the database connection is out of scope: DDL execution is modelled as
  succeeding, and only the data/control flow of the restore loop is kept;
* Go maps are modelled as association lists with last-write-wins lookup,
  and the non-deterministic iteration order of `range m` is an explicit
  `order : List String` parameter.
-/

namespace db

/-- Go `strings.Contains`: `sub` occurs as a contiguous substring of `s`. -/
def goContains (s sub : String) : Bool :=
  (s.toList.tails).any (fun t => sub.toList.isPrefixOf t)

/-- ASCII lower-casing of one character (all inputs here are ASCII). -/
def goCharToLower (c : Char) : Char :=
  if 65 ≤ c.toNat ∧ c.toNat ≤ 90 then Char.ofNat (c.toNat + 32) else c

/-- Go `strings.ToLower` (ASCII fragment). -/
def goToLower (s : String) : String := ⟨s.data.map goCharToLower⟩

/-- Decimal digit characters. -/
def digitChar (d : Nat) : Char :=
  match d with
  | 0 => '0' | 1 => '1' | 2 => '2' | 3 => '3' | 4 => '4'
  | 5 => '5' | 6 => '6' | 7 => '7' | 8 => '8' | _ => '9'

/-- Digit list of `n`, most significant first; `fuel ≥ n + 1` suffices. -/
def natDecimalAux : Nat → Nat → List Char
  | 0, _ => []
  | fuel+1, n =>
    if n < 10 then [digitChar n]
    else natDecimalAux fuel (n / 10) ++ [digitChar (n % 10)]

/-- Go `fmt.Sprintf "%d"` for naturals (decimal, no sign). -/
def natDecimal (n : Nat) : String :=
  ⟨natDecimalAux (n + 1) n⟩

/-- Go `fmt.Sprintf "%d"` for integers. -/
def intDecimal (i : Int) : String :=
  if i < 0 then "-" ++ natDecimal i.natAbs else natDecimal i.toNat

/-- The untyped `Default` slot of a column (Go `interface{}`).
`vnil` is the nil interface; numbers keep their Go dynamic type. -/
inductive GoVal where
  | vnil : GoVal
  | vstr : String → GoVal
  | vint : Int → GoVal
  | vbool : Bool → GoVal
  deriving DecidableEq, Repr

/-- Go `fmt.Sprintf "%v"` on the `Default` slot. -/
def goFmtV : GoVal → String
  | GoVal.vnil => "<nil>"
  | GoVal.vstr s => s
  | GoVal.vint i => intDecimal i
  | GoVal.vbool b => if b then "true" else "false"

structure ForeignKey where
  Table : String
  Column : String
  deriving DecidableEq, Repr

/-- The column model: union of the fields the operational code reads
(src/database/schema.go together with the fields `Enum` and `Varchar`
used by postgres.go and the `Values` list used by faker.go).
`Typ` stands for the Go field `Type` (a Lean keyword). -/
structure Column where
  Name : String
  Typ : String
  Nullable : Bool
  Default : GoVal
  IsPrimary : Bool
  IsUnique : Bool
  ForeignKey : Option ForeignKey
  Enum : String
  Values : List String
  Varchar : Option String
  deriving DecidableEq, Repr

/-- A column with only name and type set, all flags off (builder helper). -/
def mkCol (name ty : String) : Column :=
  ⟨name, ty, false, GoVal.vnil, false, false, none, "", [], none⟩

structure Table where
  Name : String
  Columns : List Column
  deriving DecidableEq, Repr

structure EnumItem where
  Name : String
  Values : List String
  deriving DecidableEq, Repr

structure Schema where
  DatabaseType : String
  Enums : List EnumItem
  Tables : List Table
  deriving DecidableEq, Repr

/-! ## Dependency orderer (src/database/mysql.go, sortTablesByDependencies)

Go builds `tableMap[name]` and `dependencies[name]` by inserting every
table in list order (later tables with the same name overwrite earlier
ones), so lookups are modelled as last-write-wins folds.  The `tempMark`
map is set and cleared exactly in step with the `path` map, so a single
`path` list models both.  Iteration order over the `dependencies` map keys
is the explicit `order` argument.  Recursion depth is bounded by fuel; the
fuel-exhaustion result `none` is the would-be non-termination observable. -/

/-- Go `tableMap[name]` (zero `Table` when absent is represented by `none`). -/
def tableMapGet (tables : List Table) (name : String) : Option Table :=
  tables.foldl (fun acc t => if t.Name = name then some t else acc) none

/-- Go `tableMap[name].Name` with the zero value `""` for a missing key. -/
def tableMapName (tables : List Table) (name : String) : String :=
  ((tableMapGet tables name).map Table.Name).getD ""

/-- The `dependencies[t.Name]` entry: referenced table of every
foreign-key column, in column order. -/
def dependenciesOf (t : Table) : List String :=
  t.Columns.filterMap (fun c => c.ForeignKey.map (fun fk => fk.Table))

/-- `dependencies[name]` lookup (empty for a missing key). -/
def depsGet (tables : List Table) (name : String) : List String :=
  match tableMapGet tables name with
  | some t => dependenciesOf t
  | none => []

/-- The mutable state of the sort: the `visited` set and the `sorted`
accumulator. -/
structure SState where
  visited : List String
  sorted : List Table
  deriving DecidableEq, Repr

/-- The recursive `visit` closure of `sortTablesByDependencies`. -/
def visit (tables : List Table) : Nat → String → List String → SState → Option SState
  | 0, _, _, _ => none
  | fuel+1, name, path, st =>
    if name = "" then some st
    else if name ∈ path then some st
    else if name ∈ st.visited then some st
    else
      match (depsGet tables name).foldlM
          (fun s dep =>
            if dep ≠ "" ∧ tableMapName tables dep ≠ "" ∧ dep ∉ (name :: path) then
              visit tables fuel dep (name :: path) s
            else
              some s) st with
      | none => none
      | some st1 =>
        let st2 : SState := ⟨name :: st1.visited, st1.sorted⟩
        match tableMapGet tables name with
        | some t => if t.Name ≠ "" then some ⟨st2.visited, st2.sorted ++ [t]⟩ else some st2
        | none => some st2

/-- src/database/mysql.go `sortTablesByDependencies`.  `order` is the
iteration order of `for tableName := range dependencies`; its keys are the
distinct table names.  The final reversal is in the source. -/
def sortTablesByDependencies (tables : List Table) (order : List String) :
    Option (List Table) :=
  match order.foldlM
      (fun st name =>
        if name ∉ st.visited ∧ name ≠ "" then
          visit tables (tables.length + 1) name [] st
        else
          some st) (⟨[], []⟩ : SState) with
  | none => none
  | some st => some st.sorted.reverse

/-! ## Synthetic data generator (src/database/faker.go)

All external reads (math/rand, go-faker, the clock) are one oracle
`FakerEnv`, read at a global call counter `tick` that advances by one per
external call.  Where the source combines several external reads into one
value whose internal structure no property depends on (random floats
formatted with `%.2f`, random dates/timestamps), the combined value is a
single oracle draw, noted on the field. -/

/-- Oracle for every external read of faker.go. -/
structure FakerEnv where
  /-- `faker.UUIDHyphenated()` -/
  uuid : Nat → String
  /-- `faker.Word()` -/
  word : Nat → String
  /-- `faker.Name()` -/
  personName : Nat → String
  /-- `faker.Phonenumber()` -/
  phone : Nat → String
  /-- `rand.Intn` draw used by `randomInt` -/
  natDraw : Nat → Nat
  /-- `rand.Float32() < 0.1` null coin -/
  nullFlip : Nat → Bool
  /-- `rand.Intn(2) == 1` bool draw -/
  boolDraw : Nat → Bool
  /-- `fmt.Sprintf("%.2f", randomFloat(0, 1000, 2))`, combined -/
  floatStr : Nat → String
  /-- random date within 5 years, formatted `2006-01-02`, combined -/
  dateStr : Nat → String
  /-- random timestamp within 5 years, formatted `2006-01-02 15:04:05`, combined -/
  tsStr : Nat → String
  /-- `time.Now().Unix()` -/
  unix : Nat → Int
  /-- `time.Now().Add(k seconds).Format("2006-01-02 15:04:05")` as a function of `k` -/
  tsOffStr : Nat → Nat → String
  /-- `time.Now().AddDate(0,0,k).Format("2006-01-02")` as a function of `k` -/
  dateOffStr : Nat → Nat → String
  /-- `time.Now().Format(time.RFC3339)` -/
  rfc3339Now : Nat → String

/-- Association-list lookup modelling a Go map read (entries are
prepended, so the first hit is the last write). -/
def alistGet (l : List (String × α)) (k : String) : Option α :=
  (l.find? (fun p => p.1 == k)).map (fun p => p.2)

/-- Go map write. -/
def alistPut (l : List (String × α)) (k : String) (v : α) : List (String × α) :=
  (k, v) :: l

/-- The package-level mutable state of faker.go plus the oracle counter. -/
structure GenState where
  tick : Nat
  generatedValues : List (String × List String)
  idCounters : List (String × Nat)
  uniqueSets : List (String × List String)
  deriving Repr

/-- The empty generator state (what `GenerateFakeData` resets to). -/
def GenState.init : GenState := ⟨0, [], [], []⟩

/-- Read a unique-value set (`uniqueValueSets[name]`, empty when absent). -/
def GenState.setOf (st : GenState) (name : String) : List String :=
  (alistGet st.uniqueSets name).getD []

/-- faker.go `generateFakeValue`, body after the nullable coin. -/
def generateFakeValueBody (env : FakerEnv) (st : GenState) (col : Column)
    (rowIndex : Nat) : String × GenState :=
  match goToLower col.Typ with
  | "uuid" => (env.uuid st.tick, { st with tick := st.tick + 1 })
  | "text" | "varchar" | "char" =>
    if goContains (goToLower col.Name) "email" then
      ("user" ++ natDecimal rowIndex ++ "@example.com", st)
    else if goContains (goToLower col.Name) "name" then
      (env.personName st.tick, { st with tick := st.tick + 1 })
    else if goContains (goToLower col.Name) "phone" then
      (env.phone st.tick, { st with tick := st.tick + 1 })
    else
      (env.word st.tick, { st with tick := st.tick + 1 })
  | "int" | "integer" | "bigint" | "smallint" =>
    (natDecimal (1 + env.natDraw st.tick % 1000000), { st with tick := st.tick + 1 })
  | "decimal" | "numeric" | "real" | "double precision" =>
    (env.floatStr st.tick, { st with tick := st.tick + 1 })
  | "boolean" | "bool" =>
    (if env.boolDraw st.tick then "true" else "false", { st with tick := st.tick + 1 })
  | "date" => (env.dateStr st.tick, { st with tick := st.tick + 1 })
  | "timestamp" | "timestamptz" => (env.tsStr st.tick, { st with tick := st.tick + 1 })
  | "json" | "jsonb" =>
    let w := env.word st.tick
    let u := env.unix (st.tick + 1)
    ("\x7b\"id\":" ++ natDecimal (rowIndex + 1) ++ ",\"timestamp\":" ++ intDecimal u
        ++ ",\"value\":\"" ++ w ++ "\"\x7d",
      { st with tick := st.tick + 2 })
  | _ =>
    if col.Values.length > 0 then
      ((col.Values.get? (rowIndex % col.Values.length)).getD "", st)
    else
      ("value_" ++ natDecimal rowIndex, st)

/-- faker.go `generateFakeValue`. -/
def generateFakeValue (env : FakerEnv) (st : GenState) (col : Column)
    (rowIndex : Nat) : String × GenState :=
  if col.Nullable then
    let coin := env.nullFlip st.tick
    let st1 : GenState := { st with tick := st.tick + 1 }
    if coin then ("NULL", st1) else generateFakeValueBody env st1 col rowIndex
  else
    generateFakeValueBody env st col rowIndex

/-- faker.go `generatePrimaryKeyValue`. -/
def generatePrimaryKeyValue (env : FakerEnv) (st : GenState) (col : Column)
    (tableName : String) : String × GenState :=
  let dataType := goToLower col.Typ
  if goContains dataType "uuid" then
    (env.uuid st.tick, { st with tick := st.tick + 1 })
  else if goContains dataType "serial" || goContains dataType "int" then
    let c := (alistGet st.idCounters tableName).getD 0 + 1
    (natDecimal c, { st with idCounters := alistPut st.idCounters tableName c })
  else
    (env.word st.tick, { st with tick := st.tick + 1 })

/-- faker.go `generateUniqueValueByType`. -/
def generateUniqueValueByType (env : FakerEnv) (st : GenState) (col : Column)
    (rowIndex attempt : Nat) : String × GenState :=
  let dataType := goToLower col.Typ
  if goContains dataType "serial" || goContains (goFmtV col.Default) "nextval" then
    (natDecimal (rowIndex + 1 + attempt), st)
  else if goContains dataType "uuid" then
    (env.uuid st.tick, { st with tick := st.tick + 1 })
  else if goContains dataType "int" then
    if goContains dataType "small" then (natDecimal (rowIndex + 1 + attempt), st)
    else if goContains dataType "big" then (natDecimal ((rowIndex + 1) * 1000 + attempt), st)
    else (natDecimal (rowIndex + 1 + attempt), st)
  else if goContains dataType "varchar" || goContains dataType "text" then
    if goContains (goToLower col.Name) "email" then
      ("user" ++ natDecimal (rowIndex + 1) ++ "_" ++ natDecimal attempt ++ "@example.com", st)
    else if goContains (goToLower col.Name) "name" then
      (env.personName st.tick ++ "_" ++ natDecimal (rowIndex + 1) ++ "_" ++ natDecimal attempt,
        { st with tick := st.tick + 1 })
    else
      (env.word st.tick ++ "_" ++ natDecimal (rowIndex + 1) ++ "_" ++ natDecimal attempt,
        { st with tick := st.tick + 1 })
  else if goContains dataType "timestamp" then
    (env.tsOffStr st.tick (rowIndex + attempt), { st with tick := st.tick + 1 })
  else if goContains dataType "date" then
    (env.dateOffStr st.tick (rowIndex + attempt), { st with tick := st.tick + 1 })
  else if goContains dataType "json" || goContains dataType "jsonb" then
    ("\x7b\"createdAt\":\"" ++ env.rfc3339Now st.tick ++ "\",\"id\":"
        ++ natDecimal (rowIndex + 1 + attempt) ++ ",\"uniqueKey\":\"key_"
        ++ natDecimal (rowIndex + 1) ++ "_" ++ natDecimal attempt ++ "\"\x7d",
      { st with tick := st.tick + 1 })
  else
    ("unique_" ++ natDecimal (rowIndex + 1) ++ "_" ++ natDecimal attempt, st)

/-- `maxAttempts` of faker.go `generateUniqueValue`. -/
def maxAttempts : Nat := 1000

/-- The bounded-retry loop of `generateUniqueValue`.  The returned `Bool`
records whether the row-index-suffix fallback after the retry budget was
taken (an observer; value and state are exactly the source's).  The fuel
is `maxAttempts - attempt`; the fuel-0 branch is unreachable from
`generateUniqueValue`. -/
def guvLoop (env : FakerEnv) (col : Column) (rowIndex : Nat) :
    Nat → Nat → GenState → String × Bool × GenState
  | 0, _, st => ("", true, st)
  | fuel+1, attempt, st =>
    let (v, st1) := generateUniqueValueByType env st col rowIndex attempt
    let set := st1.setOf col.Name
    if v ∈ set then
      if fuel = 0 then
        let f := v ++ "_" ++ natDecimal rowIndex
        (f, true, { st1 with uniqueSets := alistPut st1.uniqueSets col.Name (f :: set) })
      else
        guvLoop env col rowIndex fuel (attempt + 1) st1
    else
      (v, false, { st1 with uniqueSets := alistPut st1.uniqueSets col.Name (v :: set) })

/-- faker.go `generateUniqueValue` (value, fallback-taken flag, state). -/
def generateUniqueValue (env : FakerEnv) (st : GenState) (col : Column)
    (rowIndex : Nat) : String × Bool × GenState :=
  guvLoop env col rowIndex maxAttempts 0 st

/-- The non-pool path of a `generateTableData` cell: `generateFakeValue`,
overridden for primary/unique columns by `generateUniqueValue`. -/
def generateCellFresh (env : FakerEnv) (st : GenState) (col : Column) (i : Nat) :
    String × GenState :=
  let (fv, st1) := generateFakeValue env st col i
  if col.IsPrimary || col.IsUnique then
    let (uv, _, st2) := generateUniqueValue env st1 col i
    (uv, st2)
  else
    (fv, st1)

/-- One cell of `generateTableData`: the foreign-key pool draw with
wraparound, else the fresh path. -/
def generateCell (env : FakerEnv) (st : GenState) (col : Column) (i : Nat) :
    String × GenState :=
  match col.ForeignKey with
  | some fk =>
    let key := fk.Table ++ "." ++ fk.Column
    let values := (alistGet st.generatedValues key).getD []
    if values.length > 0 then
      ((values.get? (i % values.length)).getD "", st)
    else
      generateCellFresh env st col i
  | none => generateCellFresh env st col i

/-- One row of `generateTableData` (cells in column order). -/
def generateRow (env : FakerEnv) (st : GenState) (cols : List Column) (i : Nat) :
    List String × GenState :=
  match cols with
  | [] => ([], st)
  | c :: cs =>
    let (v, st1) := generateCell env st c i
    let (rest, st2) := generateRow env st1 cs i
    (v :: rest, st2)

/-- Rows `i, i+1, …` of `generateTableData`, `n` of them. -/
def generateRowsFrom (env : FakerEnv) (table : Table) :
    Nat → Nat → GenState → List (List String) × GenState
  | _, 0, st => ([], st)
  | i, n+1, st =>
    let (row, st1) := generateRow env st table.Columns i
    let (rest, st2) := generateRowsFrom env table (i + 1) n st1
    (row :: rest, st2)

/-- faker.go `generateTableData`: the data rows written after the header. -/
def generateTableData (env : FakerEnv) (table : Table) (rowCount : Nat)
    (st : GenState) : List (List String) × GenState :=
  generateRowsFrom env table 0 rowCount st

/-- First pass of `GenerateFakeData`: pre-generate `rowCount` primary-key
values for one column. -/
def genKeyPool (env : FakerEnv) (col : Column) (tableName : String) :
    Nat → GenState → List String × GenState
  | 0, st => ([], st)
  | n+1, st =>
    let (v, st1) := generatePrimaryKeyValue env st col tableName
    let (rest, st2) := genKeyPool env col tableName n st1
    (v :: rest, st2)

/-- First pass over one table's columns. -/
def genKeyPoolsCols (env : FakerEnv) (tableName : String) (rowCount : Nat) :
    List Column → GenState → GenState
  | [], st => st
  | c :: cs, st =>
    if c.IsPrimary then
      let key := tableName ++ "." ++ c.Name
      let (values, st1) := genKeyPool env c tableName rowCount st
      genKeyPoolsCols env tableName rowCount cs
        { st1 with generatedValues := alistPut st1.generatedValues key values }
    else
      genKeyPoolsCols env tableName rowCount cs st

/-- First pass over all tables. -/
def genKeyPools (env : FakerEnv) (rowCount : Nat) :
    List Table → GenState → GenState
  | [], st => st
  | t :: ts, st => genKeyPools env rowCount ts (genKeyPoolsCols env t.Name rowCount t.Columns st)

/-- Second pass over all tables: the per-table CSV row sets. -/
def genAllTables (env : FakerEnv) (rowCount : Nat) :
    List Table → GenState → List (String × List (List String)) × GenState
  | [], st => ([], st)
  | t :: ts, st =>
    let (rows, st1) := generateTableData env t rowCount st
    let (rest, st2) := genAllTables env rowCount ts st1
    ((t.Name, rows) :: rest, st2)

/-- faker.go `GenerateFakeData` / part_000 `GenerateFakeDataFromSchema`:
reset the shared state, pre-generate every primary-key pool, then generate
every table's rows.  The live-database schema extraction that precedes
this in `GenerateFakeData` is out of scope; the schema is the input. -/
def GenerateFakeData (env : FakerEnv) (schema : Schema) (rowCount : Nat) :
    List (String × List (List String)) × GenState :=
  let st1 := genKeyPools env rowCount schema.Tables GenState.init
  genAllTables env rowCount schema.Tables st1

/-! ## Type codec (src/database/postgres.go)

`processCSVValue` and its helpers.  Go `encoding/json` syntax acceptance
is embedded as an executable parser (`jsParse`); string values are decoded
and JSON numbers carry their literal text (Go re-prints them through
`float64`, which agrees on canonically written numbers — the only place
the text is re-printed is the array-conversion path, which no claim
evaluates on non-canonical numbers). -/

/-- Bool-valued decimal-digit test. -/
def isDigitCh (c : Char) : Bool := decide (48 ≤ c.toNat ∧ c.toNat ≤ 57)

/-- JSON / Go whitespace. -/
def isWsCh (c : Char) : Bool := c = ' ' ∨ c = '\t' ∨ c = '\n' ∨ c = '\r'

/-- Skip whitespace. -/
def jsSkipWs : List Char → List Char
  | [] => []
  | c :: cs => if isWsCh c then jsSkipWs cs else c :: cs

/-- Go `strings.HasPrefix`. -/
def strHasPrefix (s pre : String) : Bool := pre.data.isPrefixOf s.data

/-- Go `strings.HasSuffix`. -/
def strHasSuffix (s suf : String) : Bool := suf.data.reverse.isPrefixOf s.data.reverse

/-- Go `strings.TrimSpace` (ASCII whitespace). -/
def goTrimSpace (s : String) : String :=
  ⟨((s.data.dropWhile isWsCh).reverse.dropWhile isWsCh).reverse⟩

/-- `strings.ReplaceAll(s, "'", "\"")`. -/
def swapQuotes (s : String) : String :=
  ⟨s.data.map (fun c => if c = '\'' then '"' else c)⟩

/-- A hexadecimal digit. -/
def isHexCh (c : Char) : Bool :=
  isDigitCh c ∨ decide (97 ≤ c.toNat ∧ c.toNat ≤ 102) ∨ decide (65 ≤ c.toNat ∧ c.toNat ≤ 70)

/-- Numeric value of a hex digit. -/
def hexVal (c : Char) : Nat :=
  if isDigitCh c then c.toNat - 48
  else if decide (97 ≤ c.toNat) then c.toNat - 87
  else c.toNat - 55

/-- Parsed JSON value; `num` keeps the literal token text. -/
inductive Jv where
  | jnull : Jv
  | jbool : Bool → Jv
  | jnum : String → Jv
  | jstr : String → Jv
  | jarr : List Jv → Jv
  | jobj : List (String × Jv) → Jv

/-- Parse the rest of a JSON string token (after the opening quote),
returning the decoded content and the rest of the input. -/
def jsStringRest : List Char → Option (List Char × List Char)
  | [] => none
  | '"' :: cs => some ([], cs)
  | '\\' :: e :: cs =>
    match e with
    | '"' => (jsStringRest cs).map (fun p => ('"' :: p.1, p.2))
    | '\\' => (jsStringRest cs).map (fun p => ('\\' :: p.1, p.2))
    | '/' => (jsStringRest cs).map (fun p => ('/' :: p.1, p.2))
    | 'b' => (jsStringRest cs).map (fun p => (Char.ofNat 8 :: p.1, p.2))
    | 'f' => (jsStringRest cs).map (fun p => (Char.ofNat 12 :: p.1, p.2))
    | 'n' => (jsStringRest cs).map (fun p => ('\n' :: p.1, p.2))
    | 'r' => (jsStringRest cs).map (fun p => ('\r' :: p.1, p.2))
    | 't' => (jsStringRest cs).map (fun p => ('\t' :: p.1, p.2))
    | 'u' =>
      match cs with
      | a :: b :: c :: d :: cs' =>
        if isHexCh a ∧ isHexCh b ∧ isHexCh c ∧ isHexCh d then
          (jsStringRest cs').map (fun p =>
            (Char.ofNat (((hexVal a * 16 + hexVal b) * 16 + hexVal c) * 16 + hexVal d) :: p.1,
              p.2))
        else none
      | _ => none
    | _ => none
  | c :: cs =>
    if c.toNat < 32 then none
    else (jsStringRest cs).map (fun p => (c :: p.1, p.2))

/-- Span of decimal digits: the digits and the rest. -/
def digitSpan : List Char → List Char × List Char
  | [] => ([], [])
  | c :: cs =>
    if isDigitCh c then
      let (d, r) := digitSpan cs
      (c :: d, r)
    else ([], c :: cs)

/-- Parse a JSON number token, returning the literal and the rest. -/
def jsNumTok (cs : List Char) : Option (List Char × List Char) :=
  let (sgn, cs1) := match cs with
    | '-' :: r => (['-'], r)
    | r => (([] : List Char), r)
  match cs1 with
  | '0' :: r =>
    (jsFracExp r).map (fun p => (sgn ++ '0' :: p.1, p.2))
  | c :: r =>
    if isDigitCh c then
      let (d, r2) := digitSpan r
      (jsFracExp r2).map (fun p => (sgn ++ c :: d ++ p.1, p.2))
    else none
  | [] => none
where
  jsFracExp (cs : List Char) : Option (List Char × List Char) :=
    let (fr, cs2) : List Char × List Char :=
      match cs with
      | '.' :: r =>
        match digitSpan r with
        | ([], _) => (['.'], r)
        | (d, r2) => ('.' :: d, r2)
      | r => ([], r)
    if fr = ['.'] then none
    else
      match cs2 with
      | 'e' :: r => (jsExpTail r).map (fun p => (fr ++ 'e' :: p.1, p.2))
      | 'E' :: r => (jsExpTail r).map (fun p => (fr ++ 'E' :: p.1, p.2))
      | r => some (fr, r)
  jsExpTail (cs : List Char) : Option (List Char × List Char) :=
    let (sg, cs2) : List Char × List Char :=
      match cs with
      | '+' :: r => (['+'], r)
      | '-' :: r => (['-'], r)
      | r => ([], r)
    match digitSpan cs2 with
    | ([], _) => none
    | (d, r) => some (sg ++ d, r)

/-- Recursive-descent JSON parser (Go `encoding/json` value grammar).
Fuel decreases on every recursive call; `2 * length + 8` always
suffices.  Array and object tails after a comma are re-wrapped behind a
fresh opening bracket, with the empty-tail (trailing comma) case
rejected first, so the accepted language is unchanged. -/
def jsParse : Nat → List Char → Option (Jv × List Char)
  | 0, _ => none
  | fuel+1, cs =>
    match cs with
    | 'n' :: 'u' :: 'l' :: 'l' :: r => some (Jv.jnull, r)
    | 't' :: 'r' :: 'u' :: 'e' :: r => some (Jv.jbool true, r)
    | 'f' :: 'a' :: 'l' :: 's' :: 'e' :: r => some (Jv.jbool false, r)
    | '"' :: r => (jsStringRest r).map (fun p => (Jv.jstr ⟨p.1⟩, p.2))
    | '[' :: r =>
      match jsSkipWs r with
      | ']' :: r2 => some (Jv.jarr [], r2)
      | r2 =>
        match jsParse fuel r2 with
        | none => none
        | some (e, r3) =>
          match jsSkipWs r3 with
          | ']' :: r4 => some (Jv.jarr [e], r4)
          | ',' :: r4 =>
            let r5 := jsSkipWs r4
            if r5.head? = some ']' then none
            else
              match jsParse fuel ('[' :: r5) with
              | some (Jv.jarr es, r6) => some (Jv.jarr (e :: es), r6)
              | _ => none
          | _ => none
    | '{' :: r =>
      match jsSkipWs r with
      | '}' :: r2 => some (Jv.jobj [], r2)
      | '"' :: r2 =>
        match jsStringRest r2 with
        | none => none
        | some (k, r3) =>
          match jsSkipWs r3 with
          | ':' :: r4 =>
            match jsParse fuel (jsSkipWs r4) with
            | none => none
            | some (v, r5) =>
              match jsSkipWs r5 with
              | '}' :: r6 => some (Jv.jobj [(⟨k⟩, v)], r6)
              | ',' :: r6 =>
                let r7 := jsSkipWs r6
                if r7.head? = some '"' then
                  match jsParse fuel ('{' :: r7) with
                  | some (Jv.jobj ms, r8) => some (Jv.jobj ((⟨k⟩, v) :: ms), r8)
                  | _ => none
                else none
              | _ => none
          | _ => none
      | _ => none
    | _ => (jsNumTok cs).map (fun p => (Jv.jnum ⟨p.1⟩, p.2))

/-- Go `json.Unmarshal(value, &interface{})` succeeds: one value plus
surrounding whitespace. -/
def validJson (s : String) : Bool :=
  match jsParse (2 * s.length + 8) (jsSkipWs s.data) with
  | some (_, rest) => jsSkipWs rest = []
  | none => false

/-- Go `json.Unmarshal(value, &[]interface{})` succeeds: a top-level array. -/
def jsParseArray (s : String) : Option (List Jv) :=
  match jsParse (2 * s.length + 8) (jsSkipWs s.data) with
  | some (Jv.jarr es, rest) => if jsSkipWs rest = [] then some es else none
  | _ => none

/-- The first non-space, non-tab character before the current position
(the backward scan of `fixSimpleJSON`). -/
def prevNonSpace : List Char → Option Char
  | [] => none
  | c :: cs => if c = ' ' ∨ c = '\t' then prevNonSpace cs else some c

/-- The character loop of `fixSimpleJSON` over the already
quote-substituted text.  `rev` is the reversed prefix of the input. -/
def fixLoop : List Char → Bool → List Char → List Char
  | [], _, _ => []
  | c :: cs, inQ, rev =>
    if c = '"' then c :: fixLoop cs (!inQ) (c :: rev)
    else if c = ':' ∧ ¬inQ then
      match prevNonSpace rev with
      | some p =>
        if p ≠ '"' ∧ p ≠ '}' ∧ p ≠ ']' then '"' :: ':' :: fixLoop cs inQ (c :: rev)
        else ':' :: fixLoop cs inQ (c :: rev)
      | none => ':' :: fixLoop cs inQ (c :: rev)
    else c :: fixLoop cs inQ (c :: rev)

/-- postgres.go `fixSimpleJSON`. -/
def fixSimpleJSON (input : String) : String :=
  let result := swapQuotes input
  ⟨fixLoop result.data false []⟩

/-- The character loop of `parseArrayString`. -/
def parseArrLoop : List Char → Bool → List Char → List String → List String
  | [], _, cur, acc => if cur ≠ [] then acc ++ [goTrimSpace ⟨cur⟩] else acc
  | c :: cs, inQ, cur, acc =>
    if c = '"' then parseArrLoop cs (!inQ) (cur ++ [c]) acc
    else if c = ',' ∧ ¬inQ then parseArrLoop cs inQ [] (acc ++ [goTrimSpace ⟨cur⟩])
    else parseArrLoop cs inQ (cur ++ [c]) acc

/-- postgres.go `parseArrayString`. -/
def parseArrayString (s : String) : List String :=
  parseArrLoop s.data false [] []

/-- A Go `time.Time` as far as the snapshot codec observes it. -/
structure GoTime where
  year : Nat
  month : Nat
  day : Nat
  hour : Nat
  minute : Nat
  second : Nat
  nsec : Nat
  offMin : Int
  abbr : String
  deriving DecidableEq, Repr

/-- Days in a month (Gregorian). -/
def daysIn (y m : Nat) : Nat :=
  if m = 2 then (if y % 4 = 0 ∧ (y % 100 ≠ 0 ∨ y % 400 = 0) then 29 else 28)
  else if m = 4 ∨ m = 6 ∨ m = 9 ∨ m = 11 then 30
  else 31

/-- Exactly `n` decimal digits. -/
def parseNDigits : Nat → List Char → Option (Nat × List Char)
  | 0, cs => some (0, cs)
  | n+1, c :: cs =>
    if isDigitCh c then
      (parseNDigits n cs).map (fun p => (p.1 + (c.toNat - 48) * 10 ^ n, p.2))
    else none
  | _+1, [] => none

/-- Date part `2006-01-02`. -/
def parseDatePart (cs : List Char) : Option ((Nat × Nat × Nat) × List Char) :=
  match parseNDigits 4 cs with
  | none => none
  | some (y, r1) =>
    match r1 with
    | '-' :: r2 =>
      match parseNDigits 2 r2 with
      | none => none
      | some (mo, r3) =>
        match r3 with
        | '-' :: r4 =>
          match parseNDigits 2 r4 with
          | none => none
          | some (d, r5) =>
            if 1 ≤ mo ∧ mo ≤ 12 ∧ 1 ≤ d ∧ d ≤ daysIn y mo then some ((y, mo, d), r5)
            else none
        | _ => none
    | _ => none

/-- Clock part `15:04:05`. -/
def parseClockPart (cs : List Char) : Option ((Nat × Nat × Nat) × List Char) :=
  match parseNDigits 2 cs with
  | none => none
  | some (h, r1) =>
    match r1 with
    | ':' :: r2 =>
      match parseNDigits 2 r2 with
      | none => none
      | some (mi, r3) =>
        match r3 with
        | ':' :: r4 =>
          match parseNDigits 2 r4 with
          | none => none
          | some (s, r5) =>
            if h ≤ 23 ∧ mi ≤ 59 ∧ s ≤ 59 then some ((h, mi, s), r5) else none
        | _ => none
    | _ => none

/-- Optional fractional second (1–9 digits), in nanoseconds. -/
def parseFracOpt (cs : List Char) : Option (Nat × List Char) :=
  match cs with
  | '.' :: r =>
    match digitSpan r with
    | ([], _) => none
    | (d, r2) =>
      if d.length ≤ 9 then some (digitsToNat d * 10 ^ (9 - d.length), r2) else none
  | r => some (0, r)
where
  digitsToNat (l : List Char) : Nat := l.foldl (fun a c => a * 10 + (c.toNat - 48)) 0

/-- Numeric zone `-0700`. -/
def parseNumZone (cs : List Char) : Option (Int × List Char) :=
  match cs with
  | '+' :: r =>
    (parseNDigits 4 r).map (fun p => ((p.1 / 100 * 60 + p.1 % 100 : Nat), p.2))
  | '-' :: r =>
    (parseNDigits 4 r).map (fun p => (-((p.1 / 100 * 60 + p.1 % 100 : Nat) : Int), p.2))
  | _ => none

/-- Zone abbreviation: a nonempty run of capital letters. -/
def parseAbbr (cs : List Char) : Option (String × List Char) :=
  match cs.span (fun c => decide (65 ≤ c.toNat ∧ c.toNat ≤ 90)) with
  | ([], _) => none
  | (a, r) => some (⟨a⟩, r)

/-- `time.Parse("2006-01-02 15:04:05.999999 -0700 MST", value)`. -/
def parseZonedTs (value : String) : Option GoTime :=
  match parseDatePart value.data with
  | none => none
  | some ((y, mo, d), r1) =>
    match r1 with
    | ' ' :: r2 =>
      match parseClockPart r2 with
      | none => none
      | some ((h, mi, s), r3) =>
        match parseFracOpt r3 with
        | none => none
        | some (ns, r4) =>
          match r4 with
          | ' ' :: r5 =>
            match parseNumZone r5 with
            | none => none
            | some (off, r6) =>
              match r6 with
              | ' ' :: r7 =>
                match parseAbbr r7 with
                | some (ab, []) => some ⟨y, mo, d, h, mi, s, ns, off, ab⟩
                | _ => none
              | _ => none
          | _ => none
    | _ => none

/-- `time.Parse(time.RFC3339Nano, value)`. -/
def parseRFC3339Nano (value : String) : Option GoTime :=
  match parseDatePart value.data with
  | none => none
  | some ((y, mo, d), r1) =>
    match r1 with
    | 'T' :: r2 =>
      match parseClockPart r2 with
      | none => none
      | some ((h, mi, s), r3) =>
        match parseFracOpt r3 with
        | none => none
        | some (ns, r4) =>
          match r4 with
          | ['Z'] => some ⟨y, mo, d, h, mi, s, ns, 0, "UTC"⟩
          | sgn :: r5 =>
            if sgn = '+' ∨ sgn = '-' then
              match parseNDigits 2 r5 with
              | none => none
              | some (zh, r6) =>
                match r6 with
                | ':' :: r7 =>
                  match parseNDigits 2 r7 with
                  | some (zm, []) =>
                    let off : Int := (zh * 60 + zm : Nat)
                    some ⟨y, mo, d, h, mi, s, ns, if sgn = '-' then -off else off, ""⟩
                  | _ => none
                | _ => none
            else none
          | _ => none
    | _ => none

/-- `time.Parse("2006-01-02 15:04:05", value)`. -/
def parsePlainTs (value : String) : Option GoTime :=
  match parseDatePart value.data with
  | none => none
  | some ((y, mo, d), r1) =>
    match r1 with
    | ' ' :: r2 =>
      match parseClockPart r2 with
      | some ((h, mi, s), []) => some ⟨y, mo, d, h, mi, s, 0, 0, "UTC"⟩
      | _ => none
    | _ => none

/-- `time.Parse("2006-01-02", value)`. -/
def parseDateOnly (value : String) : Option GoTime :=
  match parseDatePart value.data with
  | some ((y, mo, d), []) => some ⟨y, mo, d, 0, 0, 0, 0, 0, "UTC"⟩
  | _ => none

/-- The timestamp/date attempt ladder of `processCSVValue`, in source
order: the zone-suffixed layout only when the text contains `"UTC"`, then
`time.RFC3339Nano`, then the plain layout, then date-only. -/
def tryParseTimes (value : String) : Option GoTime :=
  match (if goContains value "UTC" then parseZonedTs value else none) with
  | some t => some t
  | none =>
    match parseRFC3339Nano value with
    | some t => some t
    | none =>
      match parsePlainTs value with
      | some t => some t
      | none => parseDateOnly value

/-- Value of a digit list. -/
def digitsToNat (l : List Char) : Nat := l.foldl (fun a c => a * 10 + (c.toNat - 48)) 0

/-- Go `strconv.ParseInt(s, 10, 64)`. -/
def goParseInt (s : String) : Option Int :=
  let (neg, ds) : Bool × List Char :=
    match s.data with
    | '+' :: r => (false, r)
    | '-' :: r => (true, r)
    | r => (false, r)
  if ds = [] ∨ ¬ (ds.all isDigitCh) then none
  else
    let n := digitsToNat ds
    if neg then (if n ≤ 9223372036854775808 then some (-(n : Int)) else none)
    else (if n ≤ 9223372036854775807 then some (n : Int) else none)

/-- Go `strconv.ParseFloat(s, 64)` succeeds (decimal and inf/nan forms;
hexadecimal floats are not used by the repository's data). -/
def goParseFloatOk (s : String) : Bool :=
  let low := goToLower s
  if low = "inf" ∨ low = "+inf" ∨ low = "-inf" ∨ low = "infinity"
      ∨ low = "+infinity" ∨ low = "-infinity" ∨ low = "nan" then true
  else
    let cs := match s.data with
      | '+' :: r => r
      | '-' :: r => r
      | r => r
    match digitSpan cs with
    | ([], rest) =>
      match rest with
      | '.' :: r2 =>
        match digitSpan r2 with
        | ([], _) => false
        | (_, r3) => floatExpOk r3
      | _ => false
    | (_, rest) =>
      match rest with
      | '.' :: r2 =>
        let (_, r3) := digitSpan r2
        floatExpOk r3
      | r2 => floatExpOk r2
where
  floatExpOk : List Char → Bool
  | [] => true
  | 'e' :: r => floatExpDigits r
  | 'E' :: r => floatExpDigits r
  | _ => false
  floatExpDigits (cs : List Char) : Bool :=
    let cs2 := match cs with
      | '+' :: r => r
      | '-' :: r => r
      | r => r
    match digitSpan cs2 with
    | ([], _) => false
    | (_, r) => r = []

/-- `fmt.Sprintf("%v", e)` for a decoded JSON element (the non-string
default of the array-conversion switch).  Numbers are re-printed as their
literal token. -/
def goFmtJv : Jv → String
  | Jv.jnull => "<nil>"
  | Jv.jbool b => if b then "true" else "false"
  | Jv.jnum s => s
  | Jv.jstr s => s
  | Jv.jarr _ => "[]"
  | Jv.jobj _ => "map[]"

/-- One element of the JSON-array-to-PostgreSQL-array conversion:
strings are quoted with inner quotes escaped, anything else printed
with `%v`. -/
def pgArrayElem : Jv → String
  | Jv.jstr e => "\"" ++ ⟨e.data.flatMap (fun c => if c = '"' then ['\\', '"'] else [c])⟩ ++ "\""
  | e => goFmtJv e

/-- Go `strings.Join(l, sep)`. -/
def goJoin (l : List String) (sep : String) : String :=
  match l with
  | [] => ""
  | x :: xs => xs.foldl (fun a b => a ++ sep ++ b) x

/-- The result type of `processCSVValue` (the dynamic type handed to the
driver).  `pfloat` keeps the source text of the parsed float. -/
inductive PgVal where
  | pnull : PgVal
  | pstr : String → PgVal
  | pbool : Bool → PgVal
  | pint : Int → PgVal
  | pfloat : String → PgVal
  | ptime : GoTime → PgVal
  deriving DecidableEq, Repr

/-- The JSON/JSONB branch of `processCSVValue`. -/
def processJsonValue (value : String) : PgVal :=
  if validJson value then PgVal.pstr value
  else
    let fixedJSON :=
      if goContains value "'" ∧ ¬ goContains value "\"" then swapQuotes value else value
    if validJson fixedJSON then PgVal.pstr fixedJSON
    else
      let fixed2 := fixSimpleJSON fixedJSON
      if validJson fixed2 then PgVal.pstr fixed2
      else PgVal.pstr value

/-- The array branch of `processCSVValue`. -/
def processArrayValue (value : String) : PgVal :=
  if (strHasPrefix value "[" ∧ strHasSuffix value "]")
      ∨ (strHasPrefix value "\x7b" ∧ strHasSuffix value "\x7d") then
    if strHasPrefix value "\x7b" then PgVal.pstr value
    else
      let fixedArray :=
        if goContains value "'" ∧ ¬ goContains value "\"" then swapQuotes value else value
      match jsParseArray fixedArray with
      | some es => PgVal.pstr ("\x7b" ++ goJoin (es.map pgArrayElem) "," ++ "\x7d")
      | none =>
        let arrayStr : String := ⟨(value.data.drop 1).dropLast⟩
        PgVal.pstr ("\x7b" ++ goJoin (parseArrayString arrayStr) "," ++ "\x7d")
  else PgVal.pstr value

/-- The numeric fallthrough of `processCSVValue` (int, then float, then
keep the text). -/
def processNumeric (value colType : String) : PgVal :=
  if goContains colType "int" ∨ goContains colType "serial" ∨ goContains colType "bigserial" then
    match goParseInt value with
    | some i => PgVal.pint i
    | none => processFloat value colType
  else processFloat value colType
where
  processFloat (value colType : String) : PgVal :=
    if goContains colType "float" ∨ goContains colType "numeric" ∨ goContains colType "decimal" then
      if goParseFloatOk value then PgVal.pfloat value else PgVal.pstr value
    else PgVal.pstr value

/-- postgres.go `processCSVValue`. -/
def processCSVValue (value columnType : String) : PgVal :=
  if value = "" ∨ value = "NULL" ∨ value = "null" then PgVal.pnull
  else
    let colType := goToLower columnType
    if colType = "json" ∨ colType = "jsonb" then processJsonValue value
    else if strHasPrefix colType "array" ∨ strHasSuffix colType "[]" then
      processArrayValue value
    else
      match (if goContains colType "time" ∨ goContains colType "date" then
          tryParseTimes value else none) with
      | some t => PgVal.ptime t
      | none =>
        match (if colType = "boolean" ∨ colType = "bool" then
            (let lower := goToLower value
             if lower = "true" ∨ lower = "t" ∨ lower = "yes" ∨ lower = "y" ∨ lower = "1" then
               some true
             else if lower = "false" ∨ lower = "f" ∨ lower = "no" ∨ lower = "n"
                 ∨ lower = "0" then
               some false
             else none)
          else none) with
        | some b => PgVal.pbool b
        | none => processNumeric value colType

/-- Left-pad a decimal to width 2 with zeros. -/
def pad2 (n : Nat) : String := if n < 10 then "0" ++ natDecimal n else natDecimal n

/-- Left-pad a decimal to width 4 with zeros. -/
def pad4 (n : Nat) : String :=
  if n < 10 then "000" ++ natDecimal n
  else if n < 100 then "00" ++ natDecimal n
  else if n < 1000 then "0" ++ natDecimal n
  else natDecimal n

/-- The `.999999` fraction: microseconds with trailing zeros trimmed,
empty when zero. -/
def fracMicro (nsec : Nat) : String :=
  let micro := nsec / 1000
  if micro = 0 then ""
  else
    let digits := (pad2 (micro / 10000)).data ++ (pad4 (micro % 10000)).data
    "." ++ ⟨(digits.reverse.dropWhile (fun c => c = '0')).reverse⟩

/-- The `-0700` zone. -/
def zoneNum (offMin : Int) : String :=
  (if offMin < 0 then "-" else "+") ++ pad2 (offMin.natAbs / 60) ++ pad2 (offMin.natAbs % 60)

/-- `v.Format("2006-01-02 15:04:05.999999 -0700 UTC")` — the timestamp
cell encoding of `exportTableToCSV`.  `UTC` is not a layout verb, so it
is emitted literally whatever the time's actual zone. -/
def formatExportTime (t : GoTime) : String :=
  pad4 t.year ++ "-" ++ pad2 t.month ++ "-" ++ pad2 t.day ++ " "
    ++ pad2 t.hour ++ ":" ++ pad2 t.minute ++ ":" ++ pad2 t.second
    ++ fracMicro t.nsec ++ " " ++ zoneNum t.offMin ++ " UTC"

/-! ## MySQL enum parsing (src/database/mysql.go, GetSchema) -/

/-- Strip `enum(` … `)` from a MySQL `column_type` declaration. -/
def mysqlEnumStrip (s : String) : String :=
  if strHasPrefix s "enum(" ∧ strHasSuffix s ")" then ⟨(s.data.drop 5).dropLast⟩ else s

/-- The quote-aware member extraction loop of `GetSchema`. -/
def mysqlEnumLoop : List Char → Bool → List Char → List String → List String
  | [], _, _, acc => acc
  | c :: cs, inQ, cur, acc =>
    if c = '\'' then
      let inQ' := !inQ
      if ¬inQ' ∧ cur ≠ [] then mysqlEnumLoop cs inQ' [] (acc ++ [⟨cur⟩])
      else mysqlEnumLoop cs inQ' cur acc
    else if c = ',' ∧ ¬inQ then mysqlEnumLoop cs inQ cur acc
    else if inQ then mysqlEnumLoop cs inQ (cur ++ [c]) acc
    else mysqlEnumLoop cs inQ cur acc

/-- The member list `GetSchema` extracts from a `column_type` such as
`enum('active','inactive','pending')`. -/
def parseEnumValues (columnType : String) : List String :=
  mysqlEnumLoop (mysqlEnumStrip columnType).data false [] []

/-- The enum name `GetSchema` derives: `<table>_<column>_enum`. -/
def mysqlEnumName (tableName colName : String) : String :=
  tableName ++ "_" ++ colName ++ "_enum"

/-- Append the parsed enum to `schema.Enums` unless one with the same
name already exists. -/
def addEnumIfMissing (enums : List EnumItem) (name : String) (values : List String) :
    List EnumItem :=
  if enums.any (fun e => e.Name == name) then enums else enums ++ [⟨name, values⟩]

/-! ## Restore error flow (src/database/postgres.go, RestoreFromCSV / importCSV)

The database connection is external: the constraint toggles, the enum and
table DDL and the `COPY` executions are modelled as succeeding.  The
paths that inspect the snapshot data — the schema lookup, the CSV header,
the per-row field-count check, `processCSVValue` — are kept, and so is
the error propagation of the per-table loop. -/

/-- `columnTypeMap` of `importCSV`: column name → declared type. -/
def columnTypeMap (cols : List Column) : List (String × String) :=
  cols.foldl (fun m c => alistPut m c.Name c.Typ) []

/-- The schema lookup of `importCSV` (first table with the name). -/
def findTable (tables : List Table) (name : String) : Option Table :=
  tables.find? (fun t => t.Name == name)

/-- The record loop of `importCSV`: a row whose field count differs from
the header's is a fatal error for the table; every field is otherwise
coerced by `processCSVValue`. -/
def importRows (ctm : List (String × String)) (header : List String) :
    Nat → List (List String) → Except String (List (List PgVal))
  | _, [] => Except.ok []
  | rowCount, r :: rs =>
    if r.length ≠ header.length then
      Except.error ("column count mismatch: expected " ++ natDecimal header.length
        ++ ", got " ++ natDecimal r.length ++ " in row " ++ natDecimal (rowCount + 1))
    else
      let row := (r.zip header).map (fun p => processCSVValue p.1 ((alistGet ctm p.2).getD ""))
      match importRows ctm header (rowCount + 1) rs with
      | Except.ok rest => Except.ok (row :: rest)
      | Except.error e => Except.error e

/-- postgres.go `importCSV` on one table's CSV contents (header line
followed by the data rows). -/
def importCSV (schema : Schema) (tableName : String) (csv : List (List String)) :
    Except String (List (List PgVal)) :=
  match findTable schema.Tables tableName with
  | none => Except.error ("table " ++ tableName ++ " not found in schema")
  | some table =>
    match csv with
    | [] => Except.error "reading CSV header"
    | header :: records => importRows (columnTypeMap table.Columns) header 0 records

/-- The data-import loop of `RestoreFromCSV`: tables in schema order, a
present CSV is imported and its error is returned immediately, a missing
CSV is skipped. -/
def restoreTables (schema : Schema) (dir : List (String × List (List String))) :
    List Table → Except String Unit
  | [] => Except.ok ()
  | t :: ts =>
    match alistGet dir t.Name with
    | some csv =>
      match importCSV schema t.Name csv with
      | Except.error e =>
        Except.error ("importing data for table " ++ t.Name ++ ": " ++ e)
      | Except.ok _ => restoreTables schema dir ts
    | none => restoreTables schema dir ts

/-- postgres.go `RestoreFromCSV`: the enum/table/constraint phases
(executed against the live connection) are modelled as succeeding; the
data-import loop and its error propagation are the modelled behaviour. -/
def RestoreFromCSV (schema : Schema) (dir : List (String × List (List String))) :
    Except String Unit :=
  restoreTables schema dir schema.Tables

/-! ## The spec's claimed codec ladders, written from the claim text -/

/-- The JSON import ladder exactly as claim C5 words it: pass through if
valid; else substitute double quotes for single quotes and return that if
valid; else apply the repair pass and return that if valid; else return
the original text. -/
def claimJsonLadder (value : String) : PgVal :=
  if validJson value then PgVal.pstr value
  else
    let swapped := swapQuotes value
    if validJson swapped then PgVal.pstr swapped
    else
      let repaired := fixSimpleJSON swapped
      if validJson repaired then PgVal.pstr repaired
      else PgVal.pstr value

/-- The JSON import ladder as amended: the quote substitution is
attempted only when the text holds a single quote and no double quote,
and the repair pass is applied to the (possibly substituted) text. -/
def amendedJsonLadder (value : String) : PgVal :=
  if validJson value then PgVal.pstr value
  else
    let substituted :=
      if goContains value "'" ∧ ¬ goContains value "\"" then swapQuotes value else value
    if validJson substituted then PgVal.pstr substituted
    else
      let repaired := fixSimpleJSON substituted
      if validJson repaired then PgVal.pstr repaired
      else PgVal.pstr value

/-- The timestamp import ladder exactly as claim C8 words it: the
zone-suffixed fixed-width format, then the general high-precision format,
then the date-only format; first success wins. -/
def claimTimestampLadder (value : String) : Option GoTime :=
  match parseZonedTs value with
  | some t => some t
  | none =>
    match parseRFC3339Nano value with
    | some t => some t
    | none => parseDateOnly value

/-- The timestamp import ladder as amended: the zone-suffixed layout is
attempted only when the text contains `"UTC"`, then the high-precision
RFC 3339 format, then the plain `2006-01-02 15:04:05` layout, then
date-only; when every parse fails the text is kept. -/
def amendedTimestampLadder (value : String) : PgVal :=
  match (if goContains value "UTC" then parseZonedTs value else none) with
  | some t => PgVal.ptime t
  | none =>
    match parseRFC3339Nano value with
    | some t => PgVal.ptime t
    | none =>
      match parsePlainTs value with
      | some t => PgVal.ptime t
      | none =>
        match parseDateOnly value with
        | some t => PgVal.ptime t
        | none => PgVal.pstr value

end db

/-! ## Schema JSON round trip (src/unnamed/part_001 with `encoding/json`)

The struct model of part_001 (`Schema`/`Table`/`Column`/`EnumItem`,
`ForeignKey`) with Go `encoding/json` marshalling semantics, at the level
of JSON trees (the text layer of `encoding/json` is injective on trees
and adds nothing to the round-trip question).  Go slices distinguish nil
from empty; slice-valued fields are therefore `Option (List _)`, with
`none` for nil.  A struct field of interface type is omitted by
`omitempty` only when the interface is nil; unmarshalling a JSON number
into `interface{}` always produces a `float64` (`dnum`), whatever the
marshalled Go type was (`dint` or `dnum`). -/

namespace SchemaJson

/-- JSON trees (numbers restricted to the integral values the schema
files contain). -/
inductive Json where
  | jnull : Json
  | jbool : Bool → Json
  | jnum : Int → Json
  | jstr : String → Json
  | jarr : List Json → Json
  | jobj : List (String × Json) → Json

/-- The dynamic value in a column's untyped `Default` slot. -/
inductive JDef where
  | dnil : JDef
  | dstr : String → JDef
  | dint : Int → JDef
  | dnum : Int → JDef
  | dbool : Bool → JDef
  deriving DecidableEq, Repr

structure JFk where
  Table : String
  Column : String
  deriving DecidableEq, Repr

/-- part_001 `Column` (`Typ` is the Go field `Type`). -/
structure JColumn where
  Name : String
  Typ : String
  Nullable : Bool
  Default : JDef
  IsPrimary : Bool
  IsUnique : Bool
  ForeignKey : Option JFk
  Enum : String
  deriving DecidableEq, Repr

structure JTable where
  Name : String
  Columns : Option (List JColumn)
  deriving DecidableEq, Repr

structure JEnumItem where
  Name : String
  Values : Option (List String)
  deriving DecidableEq, Repr

structure JSchema where
  DatabaseType : String
  Enums : Option (List JEnumItem)
  Tables : Option (List JTable)
  deriving DecidableEq, Repr

/-- Marshal the `Default` slot's value (never called on `dnil`). -/
def marshalDefVal : JDef → Json
  | JDef.dnil => Json.jnull
  | JDef.dstr s => Json.jstr s
  | JDef.dint n => Json.jnum n
  | JDef.dnum n => Json.jnum n
  | JDef.dbool b => Json.jbool b

/-- Marshal a nil-able slice without `omitempty`: nil is `null`. -/
def marshalArr (f : α → Json) : Option (List α) → Json
  | none => Json.jnull
  | some l => Json.jarr (l.map f)

/-- Marshal a `ForeignKey`. -/
def marshalFk (fk : JFk) : Json :=
  Json.jobj [("table", Json.jstr fk.Table), ("column", Json.jstr fk.Column)]

/-- Marshal a `Column`: `default`, `foreignKey` and `enum` carry
`omitempty` (`default` is an interface, omitted only when nil;
`foreignKey` is a pointer, omitted when nil; `enum` is a string, omitted
when empty). -/
def marshalColumn (c : JColumn) : Json :=
  Json.jobj
    ([("name", Json.jstr c.Name), ("type", Json.jstr c.Typ),
        ("nullable", Json.jbool c.Nullable)]
      ++ (match c.Default with
          | JDef.dnil => []
          | d => [("default", marshalDefVal d)])
      ++ [("isPrimary", Json.jbool c.IsPrimary), ("isUnique", Json.jbool c.IsUnique)]
      ++ (match c.ForeignKey with
          | none => []
          | some fk => [("foreignKey", marshalFk fk)])
      ++ (if c.Enum = "" then [] else [("enum", Json.jstr c.Enum)]))

/-- Marshal a `Table`. -/
def marshalTable (t : JTable) : Json :=
  Json.jobj [("name", Json.jstr t.Name), ("columns", marshalArr marshalColumn t.Columns)]

/-- Marshal an `EnumItem`. -/
def marshalEnumItem (e : JEnumItem) : Json :=
  Json.jobj [("name", Json.jstr e.Name), ("values", marshalArr Json.jstr e.Values)]

/-- Marshal a `Schema`: `tables` carries `omitempty`, so a nil or empty
table list is omitted. -/
def marshalSchema (s : JSchema) : Json :=
  Json.jobj
    ([("databaseType", Json.jstr s.DatabaseType),
        ("enums", marshalArr marshalEnumItem s.Enums)]
      ++ (match s.Tables with
          | none => []
          | some [] => []
          | some l => [("tables", Json.jarr (l.map marshalTable))]))

/-- Object field lookup. -/
def jget (l : List (String × Json)) (k : String) : Option Json :=
  (l.find? (fun p => p.1 == k)).map (fun p => p.2)

/-- Unmarshal into a `string` field: missing or `null` leaves the zero
value. -/
def unmarshalString : Option Json → Option String
  | none => some ""
  | some Json.jnull => some ""
  | some (Json.jstr s) => some s
  | _ => none

/-- Unmarshal into a `bool` field. -/
def unmarshalBool : Option Json → Option Bool
  | none => some false
  | some Json.jnull => some false
  | some (Json.jbool b) => some b
  | _ => none

/-- Unmarshal into the untyped `Default` slot: a JSON number becomes a
`float64` (`dnum`). -/
def unmarshalDef : Option Json → Option JDef
  | none => some JDef.dnil
  | some Json.jnull => some JDef.dnil
  | some (Json.jstr s) => some (JDef.dstr s)
  | some (Json.jnum n) => some (JDef.dnum n)
  | some (Json.jbool b) => some (JDef.dbool b)
  | _ => none

/-- Unmarshal a `*ForeignKey` field. -/
def unmarshalFk : Option Json → Option (Option JFk)
  | none => some none
  | some Json.jnull => some none
  | some (Json.jobj l) => do
    let t ← unmarshalString (jget l "table")
    let c ← unmarshalString (jget l "column")
    pure (some ⟨t, c⟩)
  | _ => none

/-- Unmarshal a `[]string` field. -/
def unmarshalStrSlice : Option Json → Option (Option (List String))
  | none => some none
  | some Json.jnull => some none
  | some (Json.jarr es) =>
    (es.mapM (fun j => match j with
      | Json.jstr s => some s
      | _ => none)).map some
  | _ => none

/-- Unmarshal a `Column`. -/
def unmarshalColumn : Json → Option JColumn
  | Json.jobj l => do
    let name ← unmarshalString (jget l "name")
    let ty ← unmarshalString (jget l "type")
    let nullable ← unmarshalBool (jget l "nullable")
    let dflt ← unmarshalDef (jget l "default")
    let isP ← unmarshalBool (jget l "isPrimary")
    let isU ← unmarshalBool (jget l "isUnique")
    let fk ← unmarshalFk (jget l "foreignKey")
    let en ← unmarshalString (jget l "enum")
    pure ⟨name, ty, nullable, dflt, isP, isU, fk, en⟩
  | _ => none

/-- Unmarshal a `[]Column` field. -/
def unmarshalColumns : Option Json → Option (Option (List JColumn))
  | none => some none
  | some Json.jnull => some none
  | some (Json.jarr es) => (es.mapM unmarshalColumn).map some
  | _ => none

/-- Unmarshal a `Table`. -/
def unmarshalTable : Json → Option JTable
  | Json.jobj l => do
    let name ← unmarshalString (jget l "name")
    let cols ← unmarshalColumns (jget l "columns")
    pure ⟨name, cols⟩
  | _ => none

/-- Unmarshal an `EnumItem`. -/
def unmarshalEnumItem : Json → Option JEnumItem
  | Json.jobj l => do
    let name ← unmarshalString (jget l "name")
    let vals ← unmarshalStrSlice (jget l "values")
    pure ⟨name, vals⟩
  | _ => none

/-- Unmarshal a `[]EnumItem` field. -/
def unmarshalEnums : Option Json → Option (Option (List JEnumItem))
  | none => some none
  | some Json.jnull => some none
  | some (Json.jarr es) => (es.mapM unmarshalEnumItem).map some
  | _ => none

/-- Unmarshal a `[]Table` field. -/
def unmarshalTables : Option Json → Option (Option (List JTable))
  | none => some none
  | some Json.jnull => some none
  | some (Json.jarr es) => (es.mapM unmarshalTable).map some
  | _ => none

/-- Unmarshal a `Schema`. -/
def unmarshalSchema : Json → Option JSchema
  | Json.jobj l => do
    let dbt ← unmarshalString (jget l "databaseType")
    let enums ← unmarshalEnums (jget l "enums")
    let tables ← unmarshalTables (jget l "tables")
    pure ⟨dbt, enums, tables⟩
  | _ => none

/-- `deserialize(serialize(schema))`: `ReadSchemaFromFile`'s
`json.Unmarshal` applied to `ExportSchema`'s `json.MarshalIndent` output
(indentation does not change the tree). -/
def roundTrip (s : JSchema) : Option JSchema :=
  unmarshalSchema (marshalSchema s)

end SchemaJson

namespace db

/-! ## Fixtures and hypothesis predicates -/

/-- Successive `generateUniqueValue` calls for one column, rows
`i, i+1, …` (`n` of them): the (value, fallback-flag) pairs and the
final state — the per-column trace of `generateTableData` for a
non-foreign-key primary/unique column. -/
def genUniqueColumn (env : FakerEnv) (col : Column) :
    Nat → Nat → GenState → List (String × Bool) × GenState
  | _, 0, st => ([], st)
  | i, n+1, st =>
    let (v, f, st1) := generateUniqueValue env st col i
    let (rest, st2) := genUniqueColumn env col (i + 1) n st1
    ((v, f) :: rest, st2)

/-- The oracle never hands the generator the literal `NULL` (true of the
faker library and of every formatted clock read). -/
def EnvNeverNull (env : FakerEnv) : Prop :=
  ∀ k, env.uuid k ≠ "NULL" ∧ env.word k ≠ "NULL" ∧ env.personName k ≠ "NULL"
    ∧ env.phone k ≠ "NULL" ∧ env.floatStr k ≠ "NULL" ∧ env.dateStr k ≠ "NULL"
    ∧ env.tsStr k ≠ "NULL" ∧ (∀ m, env.tsOffStr k m ≠ "NULL" ∧ env.dateOffStr k m ≠ "NULL")

/-- An oracle whose draws are all constant (used for concrete runs). -/
def constEnv : FakerEnv where
  uuid := fun _ => "X"
  word := fun _ => "X"
  personName := fun _ => "X"
  phone := fun _ => "X"
  natDraw := fun _ => 0
  nullFlip := fun _ => false
  boolDraw := fun _ => false
  floatStr := fun _ => "0.00"
  dateStr := fun _ => "2024-01-01"
  tsStr := fun _ => "2024-01-01 00:00:00"
  unix := fun _ => 0
  tsOffStr := fun _ _ => "2024-01-01 00:00:00"
  dateOffStr := fun _ _ => "2024-01-01"
  rfc3339Now := fun _ => "2024-01-01T00:00:00Z"

/-- Concrete table: `users(id)`, no flags. -/
def usersT : Table :=
  ⟨"users", [mkCol "id" "bigint"]⟩

/-- Concrete table: `posts(user_id)` with a foreign key into `users.id`. -/
def postsT : Table :=
  ⟨"posts", [{ mkCol "user_id" "bigint" with ForeignKey := some ⟨"users", "id"⟩ }]⟩

/-- `users(id bigint primary key)`. -/
def usersBigintT : Table :=
  ⟨"users", [{ mkCol "id" "bigint" with IsPrimary := true }]⟩

/-- `posts(user_id bigint references users.id)`. -/
def postsFkT : Table :=
  ⟨"posts", [{ mkCol "user_id" "bigint" with ForeignKey := some ⟨"users", "id"⟩ }]⟩

/-- Schema of `usersBigintT` and `postsFkT`. -/
def schemaBigintFk : Schema := ⟨"postgres", [], [usersBigintT, postsFkT]⟩

/-- `users(id text primary key)`. -/
def usersTextT : Table :=
  ⟨"users", [{ mkCol "id" "text" with IsPrimary := true }]⟩

/-- `posts(ref text unique references users.id)`. -/
def postsUniqueFkT : Table :=
  ⟨"posts", [{ mkCol "ref" "text" with
    IsUnique := true, ForeignKey := some ⟨"users", "id"⟩ }]⟩

/-- Schema of `usersTextT` and `postsUniqueFkT`. -/
def schemaTextFk : Schema := ⟨"postgres", [], [usersTextT, postsUniqueFkT]⟩

/-- The state invariant of the dependency sort: the visited set is
duplicate-free, holds only nonempty names of tables in the list, the
sorted accumulator's names are a permutation of it, and every
accumulated table is the canonical (last-inserted) table of its name. -/
def SortInv (tables : List Table) (st : SState) : Prop :=
  st.visited.Nodup
    ∧ (∀ v ∈ st.visited, v ∈ tables.map Table.Name ∧ v ≠ "")
    ∧ List.Perm (st.sorted.map Table.Name) st.visited
    ∧ ∀ t ∈ st.sorted, tableMapGet tables t.Name = some t

/-- A two-table foreign-key cycle: `a` references `b.id`, `b`
references `a.id`. -/
def cycleA : Table :=
  ⟨"a", [{ mkCol "bref" "int" with ForeignKey := some ⟨"b", "id"⟩ }]⟩

/-- Second table of the cycle. -/
def cycleB : Table :=
  ⟨"b", [{ mkCol "aref" "int" with ForeignKey := some ⟨"a", "id"⟩ }]⟩

end db

namespace SchemaJson

/-- Every column default of the schema is not a Go `int` (all defaults in
introspected schemas are strings or absent; a Go `int` is re-typed to
`float64` by the round trip). -/
def DefaultsOk (s : JSchema) : Prop :=
  ∀ t ∈ s.Tables.getD [], ∀ c ∈ t.Columns.getD [], ∀ n, c.Default ≠ JDef.dint n

end SchemaJson

/-! # Theorems -/

/-- C9: parsing a MySQL column declaration whose `column_type` is
`enum('active','inactive','pending')` yields exactly the member list
`["active", "inactive", "pending"]` in declaration order, recorded as one
`EnumItem` whose name is `<table>_<column>_enum`. -/
theorem C9_enum_parsing :
    db.parseEnumValues "enum('active','inactive','pending')" =
        ["active", "inactive", "pending"]
      ∧ db.mysqlEnumName "users" "status" = "users_status_enum"
      ∧ db.addEnumIfMissing [] "users_status_enum" ["active", "inactive", "pending"] =
          [⟨"users_status_enum", ["active", "inactive", "pending"]⟩]
      ∧ db.addEnumIfMissing [⟨"users_status_enum", ["active", "inactive", "pending"]⟩]
          "users_status_enum" ["active", "inactive", "pending"] =
          [⟨"users_status_enum", ["active", "inactive", "pending"]⟩] := by
  decide

/-- C4: the claim fails on the code: for `users` and `posts(user_id →
users.id)` — an acyclic graph whose foreign keys all resolve —
`sortTablesByDependencies` returns `[posts, users]` under either map
iteration order, placing `posts` *before* the table it depends on.  The
postorder walk builds `[users, posts]` and the final reversal
(`mysql.go` lines 548–551) flips it, contradicting the function's own
doc comment. -/
theorem C4_dependency_order_reversed :
    db.dependenciesOf db.postsT = ["users"]
      ∧ db.sortTablesByDependencies [db.usersT, db.postsT] ["users", "posts"] =
          some [db.postsT, db.usersT]
      ∧ db.sortTablesByDependencies [db.usersT, db.postsT] ["posts", "users"] =
          some [db.postsT, db.usersT] := by
  decide

/-- C1: the claim fails on the code: for `users(id bigint primary key)`
and `posts(user_id → users.id)` with two rows, the foreign-key column is
filled from the pre-generated pool (`"1"`, `"2"`) but the referenced
column's own emitted values come from `generateUniqueValue`
(`"1000"`, `"2000"`), so every `posts.user_id` value is an orphan. -/
theorem C1_orphan_foreign_keys :
    (db.GenerateFakeData db.constEnv db.schemaBigintFk 2).1 =
        [("users", [["1000"], ["2000"]]), ("posts", [["1"], ["2"]])]
      ∧ ¬ ("1" ∈ (["1000", "2000"] : List String))
      ∧ ¬ ("2" ∈ (["1000", "2000"] : List String)) := by
  decide

/-- C3 counterexample: on a list holding the same table twice the sort
returns it once, which is not a permutation of the input (the claim
quantifies over every finite table list). -/
theorem C3_duplicate_table_counterexample :
    db.sortTablesByDependencies [⟨"t", []⟩, ⟨"t", []⟩] ["t"] = some [⟨"t", []⟩]
      ∧ ¬ List.Perm [(⟨"t", []⟩ : db.Table)] [⟨"t", []⟩, ⟨"t", []⟩] := by
  constructor
  · decide
  · intro h
    exact absurd h.length_eq (by decide)

/-- C6 counterexample: a unique-flagged foreign-key column copies the
referenced key pool with wraparound and is never deduplicated: with a
`users(id text primary key)` pool drawn as `["X", "X"]`, the
unique-flagged `posts.ref` column receives `["X", "X"]` — not pairwise
distinct. -/
theorem C6_fk_unique_duplicate_counterexample :
    (db.GenerateFakeData db.constEnv db.schemaTextFk 2).1 =
        [("users", [["X_1_0"], ["X_2_0"]]), ("posts", [["X"], ["X"]])]
      ∧ (∀ c ∈ db.postsUniqueFkT.Columns, c.IsUnique = true)
      ∧ ¬ (["X", "X"] : List String).Nodup := by
  decide

/-- C10 counterexample: a non-nullable enum-like column whose declared
value domain contains the literal `NULL` emits exactly that token (the
default branch of `generateFakeValue` indexes `col.Values`). -/
theorem C10_enum_null_counterexample :
    ({ db.mkCol "mood" "mood" with Values := ["NULL"] } : db.Column).Nullable = false
      ∧ (db.generateFakeValue db.constEnv db.GenState.init
          { db.mkCol "mood" "mood" with Values := ["NULL"] } 0).1 = "NULL" := by
  decide

/-- C5 counterexample: for the text `{'a':'b\"x:1'}` (which contains
both quote kinds) the claimed ladder substitutes quotes and returns the
then-valid `{"a":"b\"x:1"}`, but the code's substitution is guarded by
the absence of a double quote, its repair pass mangles the text, and the
original is returned unchanged. -/
theorem C5_quote_guard_counterexample :
    db.claimJsonLadder "\x7b'a':'b\\\"x:1'\x7d" =
        db.PgVal.pstr "\x7b\"a\":\"b\\\"x:1\"\x7d"
      ∧ db.processCSVValue "\x7b'a':'b\\\"x:1'\x7d" "json" =
          db.PgVal.pstr "\x7b'a':'b\\\"x:1'\x7d"
      ∧ ("\x7b\"a\":\"b\\\"x:1\"\x7d" : String) ≠ "\x7b'a':'b\\\"x:1'\x7d" := by
  decide

/-- C8 counterexample: the text `2025-01-02 03:04:05` is imported as a
timestamp by the plain `2006-01-02 15:04:05` layout, which the claim's
three-format ladder does not contain — under the claim no format
succeeds and the value would stay text. -/
theorem C8_plain_layout_counterexample :
    db.processCSVValue "2025-01-02 03:04:05" "timestamp" =
        db.PgVal.ptime ⟨2025, 1, 2, 3, 4, 5, 0, 0, "UTC"⟩
      ∧ db.claimTimestampLadder "2025-01-02 03:04:05" = none := by
  decide

/-- C2 counterexample: an introspected schema of an empty database has a
non-nil empty table list; `omitempty` drops the `tables` field, and the
round trip returns a nil table list — not structurally equal to the
original. -/
theorem C2_empty_tables_counterexample :
    SchemaJson.roundTrip ⟨"postgres", some [], some []⟩ =
        some ⟨"postgres", some [], none⟩
      ∧ (⟨"postgres", some [], none⟩ : SchemaJson.JSchema) ≠ ⟨"postgres", some [], some []⟩ := by
  decide

/-- C7 counterexample: a row whose field count differs from the header
count makes `RestoreFromCSV` itself return that table's error — the
whole restore is aborted, and later tables (here `posts`) are never
imported — while the claim says the whole restore is not aborted. -/
theorem C7_restore_abort_counterexample :
    db.RestoreFromCSV ⟨"postgres", [], [db.usersT, db.postsT]⟩
        [("users", [["id"], ["1", "2"]]), ("posts", [["user_id"], ["1"]])] =
      Except.error
        "importing data for table users: column count mismatch: expected 1, got 2 in row 1" :=
  rfl

/-- C5 amended: the quote substitution is attempted only when the text
contains a single quote and no double quote; the repair pass is applied
to the (possibly substituted) text; when every attempt fails the original
text is returned; the NULL tokens (empty, `NULL`, `null`) import as an
absent value before the ladder runs.  Importing `{'a':1}` produces
`{"a":1}`. -/
theorem C5_json_ladder_amended :
    (∀ v : String, v ≠ "" → v ≠ "NULL" → v ≠ "null" →
        db.processCSVValue v "json" = db.amendedJsonLadder v)
      ∧ db.processCSVValue "\x7b'a':1\x7d" "json" = db.PgVal.pstr "\x7b\"a\":1\x7d" := by
  constructor
  · intro v h1 h2 h3
    unfold db.processCSVValue
    rw [if_neg (by simp [h1, h2, h3])]
    rfl
  · decide

/-- C5 witness: the amended ladder equation at a concrete input with the
NULL-token hypotheses discharged. -/
theorem C5_json_ladder_witness :
    db.processCSVValue "\x7b'a':1\x7d" "json" = db.amendedJsonLadder "\x7b'a':1\x7d" :=
  C5_json_ladder_amended.1 "\x7b'a':1\x7d" (by decide) (by decide) (by decide)

/-- C8 amended: import attempts, in order, the zone-suffixed fixed-width
layout (only when the text contains `UTC`), the high-precision RFC 3339
layout, the plain `2006-01-02 15:04:05` layout, then date-only; the first
success is the imported value and otherwise the text is kept (after the
NULL tokens import as an absent value).  Export writes
`2006-01-02 15:04:05.999999 -0700 UTC`: microsecond precision with
trailing zeros trimmed, a numeric zone, and a literal `UTC` suffix, which
is what makes re-import take the zone-suffixed layout. -/
theorem C8_timestamp_codec_amended :
    (∀ v : String, v ≠ "" → v ≠ "NULL" → v ≠ "null" →
        db.processCSVValue v "timestamp" = db.amendedTimestampLadder v)
      ∧ db.formatExportTime ⟨2025, 1, 2, 3, 4, 5, 123456000, -420, "PDT"⟩ =
          "2025-01-02 03:04:05.123456 -0700 UTC"
      ∧ db.processCSVValue "2025-01-02 03:04:05.123456 -0700 UTC" "timestamp" =
          db.PgVal.ptime ⟨2025, 1, 2, 3, 4, 5, 123456000, -420, "UTC"⟩ := by
  refine ⟨?_, by decide, by decide⟩
  intro v h1 h2 h3
  unfold db.processCSVValue
  rw [if_neg (by simp [h1, h2, h3])]
  show (match db.tryParseTimes v with
      | some t => db.PgVal.ptime t
      | none => db.PgVal.pstr v) = db.amendedTimestampLadder v
  unfold db.tryParseTimes db.amendedTimestampLadder
  cases hz : (if db.goContains v "UTC" then db.parseZonedTs v else none) with
  | some t => rfl
  | none =>
    cases hr : db.parseRFC3339Nano v with
    | some t => rfl
    | none =>
      cases hp : db.parsePlainTs v with
      | some t => rfl
      | none =>
        cases hd : db.parseDateOnly v with
        | some t => rfl
        | none => rfl

/-- C8 witness: the amended import equation at a concrete input with the
NULL-token hypotheses discharged. -/
theorem C8_timestamp_codec_witness :
    db.processCSVValue "2025-01-02 03:04:05" "timestamp" =
      db.amendedTimestampLadder "2025-01-02 03:04:05" :=
  C8_timestamp_codec_amended.1 "2025-01-02 03:04:05" (by decide) (by decide) (by decide)

namespace db

/-- String append acts as list append on the character data. -/
theorem str_data_append (a b : String) : (a ++ b).data = a.data ++ b.data := rfl

/-- A string whose data starts with a character other than `N` is not
the literal `NULL`. -/
theorem ne_NULL_of_head (s : String) (c : Char) (cs : List Char)
    (hs : s.data = c :: cs) (hc : c ≠ 'N') : s ≠ "NULL" := by
  intro h
  rw [h] at hs
  injection hs with h1 _
  exact hc h1.symm

/-- A string containing an underscore is not the literal `NULL`. -/
theorem ne_NULL_of_underscore (s : String) (h : '_' ∈ s.data) : s ≠ "NULL" := by
  intro he
  rw [he] at h
  exact absurd h (by decide)

/-- The middle underscore of `a ++ "_" ++ b` is in the data. -/
theorem underscore_mem (a b : String) : '_' ∈ (a ++ "_" ++ b).data := by
  rw [str_data_append, str_data_append]
  simp

/-- Every digit character is one of `0`–`9`. -/
theorem digitChar_mem (d : Nat) :
    digitChar d ∈ ['0', '1', '2', '3', '4', '5', '6', '7', '8', '9'] := by
  unfold digitChar
  split <;> decide

/-- Every character produced by `natDecimalAux` is a digit. -/
theorem natDecimalAux_digits :
    ∀ fuel n c, c ∈ natDecimalAux fuel n →
      c ∈ ['0', '1', '2', '3', '4', '5', '6', '7', '8', '9'] := by
  intro fuel
  induction fuel with
  | zero => intro n c h; exact absurd h (by simp [natDecimalAux])
  | succ fuel ih =>
    intro n c h
    unfold natDecimalAux at h
    by_cases hn : n < 10
    · rw [if_pos hn] at h
      simp at h
      rw [h]
      exact digitChar_mem n
    · rw [if_neg hn] at h
      rcases List.mem_append.mp h with h' | h'
      · exact ih _ _ h'
      · simp at h'
        rw [h']
        exact digitChar_mem (n % 10)

/-- `fmt.Sprintf "%d"` output is never the literal `NULL`. -/
theorem natDecimal_ne_NULL (n : Nat) : natDecimal n ≠ "NULL" := by
  intro h
  have hd : natDecimalAux (n + 1) n = ['N', 'U', 'L', 'L'] := congrArg String.data h
  have : 'N' ∈ natDecimalAux (n + 1) n := by rw [hd]; decide
  exact absurd (natDecimalAux_digits _ _ _ this) (by decide)

end db

/-- C10 amended: a non-nullable column never receives the literal `NULL`
token provided the column's declared value domain does not itself contain
the literal `NULL` and the external draws (faker strings, formatted clock
reads) never return it — both true in practice: the NULL-emission branch
is guarded by the nullable flag, and every other generator output is a
digit string, a decorated string, a JSON object literal, a domain value
or a raw draw. -/
theorem C10_non_nullable_never_null (env : db.FakerEnv) (st : db.GenState)
    (col : db.Column) (i a : Nat) (tn : String)
    (hnul : col.Nullable = false) (henv : db.EnvNeverNull env)
    (hvals : ∀ v ∈ col.Values, v ≠ "NULL") :
    (db.generateFakeValue env st col i).1 ≠ "NULL"
      ∧ (db.generateUniqueValueByType env st col i a).1 ≠ "NULL"
      ∧ (db.generatePrimaryKeyValue env st col tn).1 ≠ "NULL" := by
  have solver := henv
  refine ⟨?_, ?_, ?_⟩
  · unfold db.generateFakeValue
    rw [hnul]
    simp only [Bool.false_eq_true, if_false]
    unfold db.generateFakeValueBody
    dsimp only
    repeat' split
    all_goals first
      | exact (henv _).1
      | exact (henv _).2.1
      | exact (henv _).2.2.1
      | exact (henv _).2.2.2.1
      | exact (henv _).2.2.2.2.1
      | exact (henv _).2.2.2.2.2.1
      | exact (henv _).2.2.2.2.2.2.1
      | exact ((henv _).2.2.2.2.2.2.2 _).1
      | exact ((henv _).2.2.2.2.2.2.2 _).2
      | exact db.natDecimal_ne_NULL _
      | exact db.ne_NULL_of_head _ 'u' _ rfl (by decide)
      | exact db.ne_NULL_of_head _ 'v' _ rfl (by decide)
      | exact db.ne_NULL_of_head _ '\x7b' _ rfl (by decide)
      | exact db.ne_NULL_of_underscore _ (db.underscore_mem _ _)
      | exact show ("true" : String) ≠ "NULL" by decide
      | exact show ("false" : String) ≠ "NULL" by decide
      | (cases hg : (col.Values.get? (i % col.Values.length)) with
          | some v =>
            simp only [hg, Option.getD_some]
            exact hvals v (List.get?_mem hg)
          | none =>
            simp only [hg, Option.getD_none]
            exact show ("" : String) ≠ "NULL" by decide)
  · unfold db.generateUniqueValueByType
    dsimp only
    repeat' split
    all_goals first
      | exact (henv _).1
      | exact (henv _).2.1
      | exact (henv _).2.2.1
      | exact (henv _).2.2.2.1
      | exact ((henv _).2.2.2.2.2.2.2 _).1
      | exact ((henv _).2.2.2.2.2.2.2 _).2
      | exact db.natDecimal_ne_NULL _
      | exact db.ne_NULL_of_head _ 'u' _ rfl (by decide)
      | exact db.ne_NULL_of_head _ '\x7b' _ rfl (by decide)
      | exact db.ne_NULL_of_underscore _ (db.underscore_mem _ _)
  · unfold db.generatePrimaryKeyValue
    dsimp only
    repeat' split
    all_goals first
      | exact (henv _).1
      | exact (henv _).2.1
      | exact db.natDecimal_ne_NULL _

/-- C10 witness: the amended statement at a concrete non-nullable integer
column under the constant oracle. -/
theorem C10_non_nullable_witness :
    (db.generateFakeValue db.constEnv db.GenState.init (db.mkCol "n" "int") 0).1 ≠ "NULL"
      ∧ (db.generateUniqueValueByType db.constEnv db.GenState.init
          (db.mkCol "n" "int") 0 0).1 ≠ "NULL"
      ∧ (db.generatePrimaryKeyValue db.constEnv db.GenState.init
          (db.mkCol "n" "int") "t").1 ≠ "NULL" :=
  C10_non_nullable_never_null db.constEnv db.GenState.init (db.mkCol "n" "int") 0 0 "t"
    (by decide)
    (by
      intro k
      refine ⟨?_, ?_, ?_, ?_, ?_, ?_, ?_, fun m => ⟨?_, ?_⟩⟩
      · show ("X" : String) ≠ "NULL"; decide
      · show ("X" : String) ≠ "NULL"; decide
      · show ("X" : String) ≠ "NULL"; decide
      · show ("X" : String) ≠ "NULL"; decide
      · show ("0.00" : String) ≠ "NULL"; decide
      · show ("2024-01-01" : String) ≠ "NULL"; decide
      · show ("2024-01-01 00:00:00" : String) ≠ "NULL"; decide
      · show ("2024-01-01 00:00:00" : String) ≠ "NULL"; decide
      · show ("2024-01-01" : String) ≠ "NULL"; decide)
    (by decide)

namespace db

/-- `generateUniqueValueByType` never touches the uniqueness sets (it
only draws from the oracle). -/
theorem byType_uniqueSets (env : FakerEnv) (st : GenState) (col : Column)
    (i a : Nat) : ((generateUniqueValueByType env st col i a).2).uniqueSets = st.uniqueSets := by
  unfold generateUniqueValueByType
  dsimp only
  repeat' split
  all_goals rfl

/-- `generateUniqueValueByType` preserves every uniqueness set. -/
theorem byType_setOf (env : FakerEnv) (st : GenState) (col : Column)
    (i a : Nat) (name : String) :
    ((generateUniqueValueByType env st col i a).2).setOf name = st.setOf name := by
  unfold GenState.setOf
  rw [byType_uniqueSets]

/-- Writing a set under a name makes `setOf` read it back. -/
theorem setOf_put (st : GenState) (name : String) (l : List String) :
    (GenState.mk st.tick st.generatedValues st.idCounters
        (alistPut st.uniqueSets name l)).setOf name = l := by
  simp [GenState.setOf, alistPut, alistGet]

/-- The retry loop: on a non-fallback exit the returned value was not in
the column's set and is pushed onto it; the set only grows in any case. -/
theorem guvLoop_spec (env : FakerEnv) (col : Column) (i : Nat) :
    ∀ fuel a st,
      ((guvLoop env col i fuel a st).2.1 = false →
          (guvLoop env col i fuel a st).1 ∉ st.setOf col.Name
          ∧ ((guvLoop env col i fuel a st).2.2).setOf col.Name
              = (guvLoop env col i fuel a st).1 :: st.setOf col.Name)
        ∧ ∀ x ∈ st.setOf col.Name, x ∈ ((guvLoop env col i fuel a st).2.2).setOf col.Name := by
  intro fuel
  induction fuel with
  | zero =>
    intro a st
    refine ⟨fun h => absurd h (by simp [guvLoop]), fun x hx => ?_⟩
    simpa [guvLoop] using hx
  | succ fuel ih =>
    intro a st
    rcases hbt : generateUniqueValueByType env st col i a with ⟨v, st1⟩
    have hset : st1.setOf col.Name = st.setOf col.Name := by
      have := byType_setOf env st col i a col.Name
      rw [hbt] at this
      exact this
    by_cases hmem : v ∈ st1.setOf col.Name
    · by_cases hf : fuel = 0
      · subst hf
        have hstep :
            guvLoop env col i (0 + 1) a st =
              (v ++ "_" ++ natDecimal i, true,
                GenState.mk st1.tick st1.generatedValues st1.idCounters
                  (alistPut st1.uniqueSets col.Name
                    ((v ++ "_" ++ natDecimal i) :: st1.setOf col.Name))) := by
          simp only [guvLoop, hbt]
          rw [if_pos hmem]
          simp
        rw [hstep]
        refine ⟨fun h => absurd h (by simp), fun x hx => ?_⟩
        rw [setOf_put]
        exact List.mem_cons_of_mem _ (hset ▸ hx)
      · have hstep :
            guvLoop env col i (fuel + 1) a st = guvLoop env col i fuel (a + 1) st1 := by
          simp only [guvLoop, hbt]
          rw [if_pos hmem, if_neg hf]
        rw [hstep]
        rcases ih (a + 1) st1 with ⟨h1, h2⟩
        rw [hset] at h1 h2
        exact ⟨h1, h2⟩
    · have hstep :
          guvLoop env col i (fuel + 1) a st =
            (v, false, GenState.mk st1.tick st1.generatedValues st1.idCounters
              (alistPut st1.uniqueSets col.Name (v :: st1.setOf col.Name))) := by
        simp only [guvLoop, hbt]
        rw [if_neg hmem]
      rw [hstep]
      refine ⟨fun _ => ⟨hset ▸ hmem, ?_⟩, fun x hx => ?_⟩
      · rw [setOf_put, hset]
      · rw [setOf_put]
        exact List.mem_cons_of_mem _ (hset ▸ hx)

/-- `generateUniqueValue` version of the loop invariant. -/
theorem generateUniqueValue_spec (env : FakerEnv) (st : GenState) (col : Column)
    (i : Nat) :
    ((generateUniqueValue env st col i).2.1 = false →
        (generateUniqueValue env st col i).1 ∉ st.setOf col.Name
        ∧ ((generateUniqueValue env st col i).2.2).setOf col.Name
            = (generateUniqueValue env st col i).1 :: st.setOf col.Name)
      ∧ ∀ x ∈ st.setOf col.Name, x ∈ ((generateUniqueValue env st col i).2.2).setOf col.Name :=
  guvLoop_spec env col i maxAttempts 0 st

/-- The per-column trace: when no call fell back, every produced value
is fresh for the pre-state, the set only grows, and the produced values
are pairwise distinct. -/
theorem genUniqueColumn_spec (env : FakerEnv) (col : Column) :
    ∀ n i st,
      (∀ p ∈ (genUniqueColumn env col i n st).1, p.2 = false) →
      ((genUniqueColumn env col i n st).1.map Prod.fst).Nodup
        ∧ (∀ p ∈ (genUniqueColumn env col i n st).1, p.1 ∉ st.setOf col.Name)
        ∧ (∀ x ∈ st.setOf col.Name, x ∈ ((genUniqueColumn env col i n st).2).setOf col.Name)
        ∧ (∀ p ∈ (genUniqueColumn env col i n st).1,
            p.1 ∈ ((genUniqueColumn env col i n st).2).setOf col.Name) := by
  intro n
  induction n with
  | zero =>
    intro i st _
    refine ⟨by simp [genUniqueColumn], by simp [genUniqueColumn], fun x hx => ?_,
      by simp [genUniqueColumn]⟩
    simpa [genUniqueColumn] using hx
  | succ n ih =>
    intro i st hflags
    rcases hgu : generateUniqueValue env st col i with ⟨v, f, st1⟩
    have hrec := ih (i + 1) st1
    have hunf :
        genUniqueColumn env col i (n + 1) st =
          ((v, f) :: (genUniqueColumn env col (i + 1) n st1).1,
            (genUniqueColumn env col (i + 1) n st1).2) := by
      simp only [genUniqueColumn, hgu]
    rw [hunf] at hflags ⊢
    have hf : f = false := hflags (v, f) (by simp)
    subst hf
    have hflags' : ∀ p ∈ (genUniqueColumn env col (i + 1) n st1).1, p.2 = false :=
      fun p hp => hflags p (List.mem_cons_of_mem _ hp)
    rcases hrec hflags' with ⟨hnd, hfresh, hmono, hin⟩
    have hspec := generateUniqueValue_spec env st col i
    rw [hgu] at hspec
    rcases hspec.1 rfl with ⟨hvfresh, hvset⟩
    refine ⟨?_, ?_, ?_, ?_⟩
    · simp only [List.map_cons, List.nodup_cons]
      refine ⟨fun hvmem => ?_, hnd⟩
      rcases List.mem_map.mp hvmem with ⟨p, hp, hpv⟩
      have : p.1 ∉ st1.setOf col.Name := hfresh p hp
      rw [hpv] at this
      exact this (by rw [hvset]; exact List.mem_cons_self _ _)
    · intro p hp
      rcases List.mem_cons.mp hp with h | h
      · rw [h]
        exact hvfresh
      · intro hmem
        exact hfresh p h (by rw [hvset]; exact List.mem_cons_of_mem _ hmem)
    · intro x hx
      exact hmono x (by rw [hvset]; exact List.mem_cons_of_mem _ hx)
    · intro p hp
      rcases List.mem_cons.mp hp with h | h
      · rw [h]
        exact hmono v (by rw [hvset]; exact List.mem_cons_self _ _)
      · exact hin p h

end db

/-- C6 amended: in the uniqueness loop, values produced without ever
reaching the 1000-attempt row-index-suffix fallback are pairwise distinct
for a given column — so non-foreign-key primary/unique columns are
duplicate-free whenever the retry budget suffices; the fallback value,
and a unique-flagged foreign-key column (which copies pool values with
wraparound and bypasses the loop), may repeat. -/
theorem C6_unique_loop_distinct (env : db.FakerEnv) (col : db.Column) (n : Nat)
    (st : db.GenState)
    (hflags : ∀ p ∈ (db.genUniqueColumn env col 0 n st).1, p.2 = false) :
    ((db.genUniqueColumn env col 0 n st).1.map Prod.fst).Nodup :=
  (db.genUniqueColumn_spec env col n 0 st hflags).1

/-- C6 witness: two rows of a unique integer column under the constant
oracle: no fallback occurs and the values are distinct. -/
theorem C6_unique_loop_witness :
    ((db.genUniqueColumn db.constEnv (db.mkCol "k" "int") 0 2 db.GenState.init).1.map
      Prod.fst).Nodup :=
  C6_unique_loop_distinct db.constEnv (db.mkCol "k" "int") 2 db.GenState.init (by decide)

namespace db

/-- A row with a mismatched field count makes the record loop fail. -/
theorem importRows_error_of_mismatch (ctm : List (String × String))
    (header : List String) :
    ∀ (n : Nat) (records : List (List String)),
      (∃ r ∈ records, r.length ≠ header.length) →
      ∃ e, importRows ctm header n records = Except.error e := by
  intro n records
  induction records generalizing n with
  | nil =>
    rintro ⟨r, hr, _⟩
    exact absurd hr (by simp)
  | cons r rs ih =>
    rintro ⟨r0, hr0, hlen⟩
    by_cases h : r.length ≠ header.length
    · refine ⟨"column count mismatch: expected " ++ natDecimal header.length
        ++ ", got " ++ natDecimal r.length ++ " in row " ++ natDecimal (n + 1), ?_⟩
      simp [importRows, if_pos h]
    · rcases List.mem_cons.mp hr0 with rfl | hmem
      · exact absurd hlen h
      · rcases ih (n + 1) ⟨r0, hmem, hlen⟩ with ⟨e, he⟩
        exact ⟨e, by simp [importRows, if_neg h, he]⟩

/-- When every row has the header's field count the record loop succeeds
(every other field-level coercion is total: `processCSVValue` returns a
value, never an error). -/
theorem importRows_ok_of_match (ctm : List (String × String))
    (header : List String) :
    ∀ (n : Nat) (records : List (List String)),
      (∀ r ∈ records, r.length = header.length) →
      ∃ rows, importRows ctm header n records = Except.ok rows := by
  intro n records
  induction records generalizing n with
  | nil => exact fun _ => ⟨[], rfl⟩
  | cons r rs ih =>
    intro h
    have hr : ¬ r.length ≠ header.length := by
      simp [h r (List.mem_cons_self _ _)]
    rcases ih (n + 1) (fun r' hr' => h r' (List.mem_cons_of_mem _ hr')) with ⟨rows, hrows⟩
    refine ⟨(r.zip header).map
      (fun p => processCSVValue p.1 ((alistGet ctm p.2).getD "")) :: rows, ?_⟩
    simp [importRows, if_neg hr, hrows]

/-- An erroring table import makes the whole table loop error. -/
theorem restoreTables_error (schema : Schema) (dir : List (String × List (List String)))
    (t : Table) (csv : List (List String)) (e : String)
    (hdir : alistGet dir t.Name = some csv)
    (himp : importCSV schema t.Name csv = Except.error e) :
    ∀ ts, t ∈ ts → ∃ e', restoreTables schema dir ts = Except.error e' := by
  intro ts
  induction ts with
  | nil => intro h; exact absurd h (by simp)
  | cons t0 ts' ih =>
    intro hmem
    cases hy : alistGet dir t0.Name with
    | none =>
      rcases List.mem_cons.mp hmem with rfl | h
      · rw [hdir] at hy
        cases hy
      · rcases ih h with ⟨e', he'⟩
        exact ⟨e', by simp [restoreTables, hy, he']⟩
    | some csv0 =>
      cases hic : importCSV schema t0.Name csv0 with
      | error e0 =>
        refine ⟨"importing data for table " ++ t0.Name ++ ": " ++ e0, ?_⟩
        simp [restoreTables, hy, hic]
      | ok rows =>
        rcases List.mem_cons.mp hmem with rfl | h
        · rw [hdir] at hy
          injection hy with hy'
          rw [← hy'] at hic
          rw [himp] at hic
          cases hic
        · rcases ih h with ⟨e', he'⟩
          exact ⟨e', by simp [restoreTables, hy, hic, he']⟩

end db

/-- C7 amended: a CSV data row whose field count differs from the
header/column count makes that table's load fail with an error, and
`RestoreFromCSV` propagates that error — aborting the whole restore, not
just the table — while every other field-level coercion failure degrades
to passing the original text through (`processCSVValue` is total, so a
row of the right width never fails the load). -/
theorem C7_rowformat_error_flow :
    (∀ (ctm : List (String × String)) (header : List String) (n : Nat)
        (records : List (List String)),
        (∃ r ∈ records, r.length ≠ header.length) →
        ∃ e, db.importRows ctm header n records = Except.error e)
      ∧ (∀ (ctm : List (String × String)) (header : List String) (n : Nat)
          (records : List (List String)),
          (∀ r ∈ records, r.length = header.length) →
          ∃ rows, db.importRows ctm header n records = Except.ok rows)
      ∧ (∀ (schema : db.Schema) (dir : List (String × List (List String)))
          (t : db.Table) (csv : List (List String)) (e : String),
          t ∈ schema.Tables → db.alistGet dir t.Name = some csv →
          db.importCSV schema t.Name csv = Except.error e →
          ∃ e', db.RestoreFromCSV schema dir = Except.error e') :=
  ⟨db.importRows_error_of_mismatch, db.importRows_ok_of_match,
    fun schema dir t csv e ht hdir himp =>
      db.restoreTables_error schema dir t csv e hdir himp schema.Tables ht⟩

/-- C7 witness: the error flow at a concrete two-table restore whose
first table has a short header and a two-field row. -/
theorem C7_rowformat_witness :
    ∃ e', db.RestoreFromCSV ⟨"postgres", [], [db.usersT, db.postsT]⟩
        [("users", [["id"], ["1", "2"]]), ("posts", [["user_id"], ["1"]])] =
      Except.error e' :=
  C7_rowformat_error_flow.2.2 ⟨"postgres", [], [db.usersT, db.postsT]⟩
    [("users", [["id"], ["1", "2"]]), ("posts", [["user_id"], ["1"]])]
    db.usersT [["id"], ["1", "2"]]
    "column count mismatch: expected 1, got 2 in row 1"
    (by decide) (by decide) rfl

namespace SchemaJson

theorem jget_nil (k : String) : jget [] k = none := rfl

theorem jget_cons (k k' : String) (v : Json) (l : List (String × Json)) :
    jget ((k, v) :: l) k' = if k == k' then some v else jget l k' := by
  cases h : k == k' <;> simp [jget, List.find?, h]

theorem mapM_inverse {α β : Type} (f : β → Option α) (g : α → β) :
    ∀ l : List α, (∀ x ∈ l, f (g x) = some x) → (l.map g).mapM f = some l := by
  intro l
  induction l with
  | nil => intro _; rfl
  | cons x xs ih =>
    intro h
    simp only [List.map_cons, List.mapM_cons, h x (List.mem_cons_self _ _),
      ih (fun y hy => h y (List.mem_cons_of_mem _ hy))]
    rfl

theorem unmarshal_marshal_column (c : JColumn) (hd : ∀ n, c.Default ≠ JDef.dint n) :
    unmarshalColumn (marshalColumn c) = some c := by
  cases c with
  | mk name ty nullable dflt isP isU fk en =>
    cases dflt with
    | dint n => exact absurd rfl (hd n)
    | _ =>
      cases fk <;> by_cases hE : en = "" <;>
        simp_all [marshalColumn, unmarshalColumn, jget_cons, jget_nil, marshalFk,
          unmarshalFk, unmarshalString, unmarshalBool, unmarshalDef, marshalDefVal]

end SchemaJson

namespace SchemaJson

theorem unmarshal_marshal_table (t : JTable)
    (hd : ∀ c ∈ t.Columns.getD [], ∀ n, c.Default ≠ JDef.dint n) :
    unmarshalTable (marshalTable t) = some t := by
  cases t with
  | mk name cols =>
    cases cols with
    | none =>
      simp [marshalTable, unmarshalTable, marshalArr, unmarshalColumns, jget_cons,
        jget_nil, unmarshalString]
    | some l =>
      have hcols : unmarshalColumns (some (marshalArr marshalColumn (some l))) =
          some (some l) := by
        show ((l.map marshalColumn).mapM unmarshalColumn).map some = some (some l)
        rw [mapM_inverse unmarshalColumn marshalColumn l
          (fun c hc => unmarshal_marshal_column c (by simpa using hd c (by simpa using hc)))]
        rfl
      simp [marshalTable, unmarshalTable, jget_cons, jget_nil, unmarshalString, hcols]

theorem unmarshal_marshal_enumItem (e : JEnumItem) :
    unmarshalEnumItem (marshalEnumItem e) = some e := by
  cases e with
  | mk name vals =>
    cases vals with
    | none =>
      simp [marshalEnumItem, unmarshalEnumItem, marshalArr, unmarshalStrSlice,
        jget_cons, jget_nil, unmarshalString]
    | some l =>
      have hvals : unmarshalStrSlice (some (marshalArr Json.jstr (some l))) =
          some (some l) := by
        show ((l.map Json.jstr).mapM (fun j => match j with
          | Json.jstr s => some s
          | _ => none)).map some = some (some l)
        rw [mapM_inverse (fun j => match j with
          | Json.jstr s => some s
          | _ => none) Json.jstr l (fun s _ => rfl)]
        rfl
      simp [marshalEnumItem, unmarshalEnumItem, jget_cons, jget_nil, unmarshalString, hvals]

theorem unmarshal_marshal_enums (enums : Option (List JEnumItem)) :
    unmarshalEnums (some (marshalArr marshalEnumItem enums)) = some enums := by
  cases enums with
  | none => rfl
  | some le =>
    show ((le.map marshalEnumItem).mapM unmarshalEnumItem).map some = some (some le)
    rw [mapM_inverse unmarshalEnumItem marshalEnumItem le
      (fun e _ => unmarshal_marshal_enumItem e)]
    rfl

end SchemaJson

/-- C2 amended: the schema round trip is the identity for every schema
whose `Tables` slice is not a non-nil empty list and whose column
`Default` slots hold no Go `int` — in particular for every introspected
schema of a non-empty database, whose defaults are strings or absent. -/
theorem C2_schema_round_trip (s : SchemaJson.JSchema)
    (hd : SchemaJson.DefaultsOk s) (ht : s.Tables ≠ some []) :
    SchemaJson.roundTrip s = some s := by
  cases s with
  | mk dbt enums tables =>
    have henums := SchemaJson.unmarshal_marshal_enums enums
    cases tables with
    | none =>
      simp [SchemaJson.roundTrip, SchemaJson.marshalSchema, SchemaJson.unmarshalSchema,
        SchemaJson.jget_cons, SchemaJson.jget_nil, SchemaJson.unmarshalString,
        SchemaJson.unmarshalTables, henums]
    | some lt =>
      cases lt with
      | nil => exact absurd rfl ht
      | cons t0 ts =>
        have htab : SchemaJson.unmarshalTables
            (some (SchemaJson.Json.jarr
              (SchemaJson.marshalTable t0 :: ts.map SchemaJson.marshalTable))) =
            some (some (t0 :: ts)) := by
          show (((t0 :: ts).map SchemaJson.marshalTable).mapM
            SchemaJson.unmarshalTable).map some = some (some (t0 :: ts))
          rw [SchemaJson.mapM_inverse _ _ _ (fun t htm =>
            SchemaJson.unmarshal_marshal_table t (fun c hc n =>
              hd t (by simpa using htm) c hc n))]
          rfl
        simp [SchemaJson.roundTrip, SchemaJson.marshalSchema, SchemaJson.unmarshalSchema,
          SchemaJson.jget_cons, SchemaJson.jget_nil, SchemaJson.unmarshalString,
          henums, htab]

/-- C2 witness: a one-table, one-enum schema with a string default
round-trips to itself. -/
theorem C2_schema_round_trip_witness :
    SchemaJson.roundTrip
        ⟨"postgres", some [⟨"status", some ["a", "b"]⟩],
          some [⟨"users", some [⟨"id", "integer", false, SchemaJson.JDef.dstr
            "nextval('users_id_seq'::regclass)", true, false, none, ""⟩]⟩]⟩ =
      some ⟨"postgres", some [⟨"status", some ["a", "b"]⟩],
        some [⟨"users", some [⟨"id", "integer", false, SchemaJson.JDef.dstr
          "nextval('users_id_seq'::regclass)", true, false, none, ""⟩]⟩]⟩ :=
  C2_schema_round_trip _
    (by
      intro t ht c hc n
      simp at ht
      subst ht
      simp at hc
      subst hc
      simp)
    (by simp)

namespace db

theorem tableMapGet_sound (tables : List Table) (name : String) (t : Table) :
    tableMapGet tables name = some t → t.Name = name ∧ t ∈ tables := by
  have aux : ∀ l : List Table, ∀ acc : Option Table,
      (l.foldl (fun acc x => if x.Name = name then some x else acc) acc) = some t →
      (t.Name = name ∧ t ∈ l) ∨ acc = some t := by
    intro l
    induction l with
    | nil => intro acc h; exact Or.inr h
    | cons x xs ih =>
      intro acc h
      rcases ih _ h with ⟨h1, h2⟩ | hstep
      · exact Or.inl ⟨h1, List.mem_cons_of_mem _ h2⟩
      · replace hstep : (if x.Name = name then some x else acc) = some t := hstep
        by_cases hx : x.Name = name
        · rw [if_pos hx] at hstep
          injection hstep with h'
          exact Or.inl ⟨h' ▸ hx, h' ▸ List.mem_cons_self _ _⟩
        · rw [if_neg hx] at hstep
          exact Or.inr hstep
  intro h
  rcases aux tables none h with h' | h'
  · exact h'
  · cases h'

theorem tableMapGet_total (tables : List Table) (name : String) :
    name ∈ tables.map Table.Name → ∃ t, tableMapGet tables name = some t := by
  have aux : ∀ l : List Table, ∀ acc : Option Table,
      (l.foldl (fun acc x => if x.Name = name then some x else acc) acc) = none →
      (∀ x ∈ l, x.Name ≠ name) ∧ acc = none := by
    intro l
    induction l with
    | nil => exact fun acc h => ⟨by simp, h⟩
    | cons x xs ih =>
      intro acc h
      rcases ih _ h with ⟨h1, h2⟩
      replace h2 : (if x.Name = name then some x else acc) = none := h2
      by_cases hx : x.Name = name
      · rw [if_pos hx] at h2
        cases h2
      · rw [if_neg hx] at h2
        exact ⟨fun y hy => by
          rcases List.mem_cons.mp hy with rfl | hmem
          · exact hx
          · exact h1 y hmem, h2⟩
  intro hmem
  cases hget : tableMapGet tables name with
  | some t => exact ⟨t, rfl⟩
  | none =>
    rcases List.mem_map.mp hmem with ⟨t, htm, htn⟩
    exact absurd htn ((aux tables none hget).1 t htm)

theorem tableMapGet_self (tables : List Table) (t : Table)
    (hnd : (tables.map Table.Name).Nodup) (ht : t ∈ tables) :
    tableMapGet tables t.Name = some t := by
  rcases tableMapGet_total tables t.Name (List.mem_map_of_mem _ ht) with ⟨t', hget⟩
  rcases tableMapGet_sound tables t.Name t' hget with ⟨hn, hm⟩
  have heq : t' = t := List.inj_on_of_nodup_map hnd hm ht hn
  subst heq
  exact hget

end db

namespace db

theorem visit_isSome (tables : List Table) :
    ∀ (fuel : Nat) (path : List String) (name : String) (st : SState),
      path.Nodup → (∀ x ∈ path, x ∈ tables.map Table.Name) →
      (tables.map Table.Name).toFinset.card < fuel + path.length →
      (visit tables fuel name path st).isSome := by
  intro fuel
  induction fuel with
  | zero =>
    intro path name st hnd hsub hcard
    exfalso
    have h1 : path.toFinset.card = path.length := List.toFinset_card_of_nodup hnd
    have h2 : path.toFinset ⊆ (tables.map Table.Name).toFinset := by
      intro x hx
      exact List.mem_toFinset.mpr (hsub x (List.mem_toFinset.mp hx))
    have h3 := Finset.card_le_card h2
    omega
  | succ fuel ih =>
    intro path name st hnd hsub hcard
    unfold visit
    by_cases h1 : name = ""
    · simp [h1]
    rw [if_neg h1]
    by_cases h2 : name ∈ path
    · simp [h2]
    rw [if_neg h2]
    by_cases h3 : name ∈ st.visited
    · simp [h3]
    rw [if_neg h3]
    cases hget : tableMapGet tables name with
    | none =>
      have hdeps : depsGet tables name = [] := by simp [depsGet, hget]
      rw [hdeps]
      simp [hget]
    | some t =>
      have hnameN : name ∈ tables.map Table.Name := by
        rcases tableMapGet_sound _ _ _ hget with ⟨hn, hm⟩
        exact hn ▸ List.mem_map_of_mem _ hm
      have hfold : ∀ (ds : List String) (s : SState),
          (ds.foldlM (fun s dep =>
            if dep ≠ "" ∧ tableMapName tables dep ≠ "" ∧ dep ∉ (name :: path) then
              visit tables fuel dep (name :: path) s
            else some s) s).isSome := by
        intro ds
        induction ds with
        | nil => intro s; rfl
        | cons d ds ihd =>
          intro s
          rw [List.foldlM_cons]
          by_cases hg : d ≠ "" ∧ tableMapName tables d ≠ "" ∧ d ∉ (name :: path)
          · rw [if_pos hg]
            have hv : (visit tables fuel d (name :: path) s).isSome := by
              apply ih (name :: path) d s
              · exact List.nodup_cons.mpr ⟨h2, hnd⟩
              · intro x hx
                rcases List.mem_cons.mp hx with rfl | hx'
                · exact hnameN
                · exact hsub x hx'
              · simp only [List.length_cons]
                omega
            obtain ⟨st', hst'⟩ := Option.isSome_iff_exists.mp hv
            rw [hst']
            exact ihd st'
          · rw [if_neg hg]
            exact ihd s
      obtain ⟨st1, hst1⟩ := Option.isSome_iff_exists.mp (hfold (depsGet tables name) st)
      rw [hst1]
      simp only [hget]
      split <;> rfl

end db

namespace db

theorem visit_inv (tables : List Table) :
    ∀ (fuel : Nat) (name : String) (path : List String) (st st' : SState),
      name ∈ tables.map Table.Name →
      visit tables fuel name path st = some st' →
      SortInv tables st →
      SortInv tables st' ∧
      (∀ v ∈ st.visited, v ∈ st'.visited) ∧
      (∀ v ∈ st'.visited, v ∈ st.visited ∨ v ∉ path) ∧
      (name ≠ "" → name ∉ path → name ∈ st'.visited) := by
  intro fuel
  induction fuel with
  | zero =>
    intro name path st st' _ hv _
    exact absurd hv (by simp [visit])
  | succ fuel ih =>
    intro name path st st' hname hv hinv
    unfold visit at hv
    by_cases h1 : name = ""
    · rw [if_pos h1] at hv
      obtain rfl : st = st' := by injection hv
      exact ⟨hinv, fun v hv => hv, fun v hv => Or.inl hv,
        fun hne _ => absurd h1 hne⟩
    rw [if_neg h1] at hv
    by_cases h2 : name ∈ path
    · rw [if_pos h2] at hv
      obtain rfl : st = st' := by injection hv
      exact ⟨hinv, fun v hv => hv, fun v hv => Or.inl hv,
        fun _ hnp => absurd h2 hnp⟩
    rw [if_neg h2] at hv
    by_cases h3 : name ∈ st.visited
    · rw [if_pos h3] at hv
      obtain rfl : st = st' := by injection hv
      exact ⟨hinv, fun v hv => hv, fun v hv => Or.inl hv, fun _ _ => h3⟩
    rw [if_neg h3] at hv
    have hfoldlem : ∀ (ds : List String) (s s1 : SState),
        (ds.foldlM (fun s dep =>
          if dep ≠ "" ∧ tableMapName tables dep ≠ "" ∧ dep ∉ (name :: path) then
            visit tables fuel dep (name :: path) s
          else some s) s) = some s1 →
        SortInv tables s →
        SortInv tables s1 ∧ (∀ v ∈ s.visited, v ∈ s1.visited) ∧
        (∀ v ∈ s1.visited, v ∈ s.visited ∨ v ∉ (name :: path)) := by
      intro ds
      induction ds with
      | nil =>
        intro s s1 h hinvs
        obtain rfl : s = s1 := by injection h
        exact ⟨hinvs, fun v hv => hv, fun v hv => Or.inl hv⟩
      | cons d ds ihd =>
        intro s s1 h hinvs
        rw [List.foldlM_cons] at h
        by_cases hg : d ≠ "" ∧ tableMapName tables d ≠ "" ∧ d ∉ (name :: path)
        · rw [if_pos hg] at h
          cases hmid : visit tables fuel d (name :: path) s with
          | none => rw [hmid] at h; exact absurd h (by simp)
          | some smid =>
            rw [hmid] at h
            replace h : (ds.foldlM (fun s dep =>
                if dep ≠ "" ∧ tableMapName tables dep ≠ "" ∧ dep ∉ (name :: path) then
                  visit tables fuel dep (name :: path) s
                else some s) smid) = some s1 := h
            have hdmem : d ∈ tables.map Table.Name := by
              rcases hg with ⟨-, hmn, -⟩
              unfold tableMapName at hmn
              cases hget : tableMapGet tables d with
              | none => rw [hget] at hmn; exact absurd rfl hmn
              | some t' =>
                rcases tableMapGet_sound _ _ _ hget with ⟨hn, hm⟩
                exact hn ▸ List.mem_map_of_mem _ hm
            obtain ⟨hinvm, hmonom, hthirdm, -⟩ :=
              ih d (name :: path) s smid hdmem hmid hinvs
            obtain ⟨hinv1, hmono1, hthird1⟩ := ihd smid s1 h hinvm
            refine ⟨hinv1, fun v hv => hmono1 v (hmonom v hv), fun v hv => ?_⟩
            rcases hthird1 v hv with hvs | hnp
            · exact hthirdm v hvs
            · exact Or.inr hnp
        · rw [if_neg hg] at h
          replace h : (ds.foldlM (fun s dep =>
              if dep ≠ "" ∧ tableMapName tables dep ≠ "" ∧ dep ∉ (name :: path) then
                visit tables fuel dep (name :: path) s
              else some s) s) = some s1 := h
          exact ihd s s1 h hinvs
    cases hfold : (depsGet tables name).foldlM
        (fun s dep =>
          if dep ≠ "" ∧ tableMapName tables dep ≠ "" ∧ dep ∉ (name :: path) then
            visit tables fuel dep (name :: path) s
          else some s) st with
    | none => rw [hfold] at hv; exact absurd hv (by simp)
    | some st1 =>
      rw [hfold] at hv
      obtain ⟨hinv1, hmono1, hthird1⟩ := hfoldlem _ _ _ hfold hinv
      have hnotv1 : name ∉ st1.visited := by
        intro hmem
        rcases hthird1 name hmem with hvs | hnp
        · exact h3 hvs
        · exact hnp (List.mem_cons_self _ _)
      obtain ⟨t, hget⟩ := tableMapGet_total tables name hname
      rcases tableMapGet_sound _ _ _ hget with ⟨htn, htm⟩
      rw [hget] at hv
      have ht : t.Name ≠ "" := by rw [htn]; exact h1
      replace hv : (if t.Name ≠ "" then
          some (⟨name :: st1.visited, st1.sorted ++ [t]⟩ : SState)
        else some (⟨name :: st1.visited, st1.sorted⟩ : SState)) = some st' := hv
      rw [if_pos ht] at hv
      obtain rfl : (⟨name :: st1.visited, st1.sorted ++ [t]⟩ : SState) = st' := by
        injection hv
      obtain ⟨hnd1, hdom1, hperm1, hsort1⟩ := hinv1
      refine ⟨⟨List.nodup_cons.mpr ⟨hnotv1, hnd1⟩, ?_, ?_, ?_⟩, ?_, ?_, ?_⟩
      · intro v hvmem
        rcases List.mem_cons.mp hvmem with rfl | hvmem'
        · exact ⟨hname, h1⟩
        · exact hdom1 v hvmem'
      · show ((st1.sorted ++ [t]).map Table.Name).Perm (name :: st1.visited)
        rw [List.map_append, List.map_cons, List.map_nil, htn]
        exact List.Perm.trans (List.perm_append_singleton _ _) (hperm1.cons name)
      · intro t' ht'
        rcases List.mem_append.mp ht' with ht'' | ht''
        · exact hsort1 t' ht''
        · obtain rfl : t' = t := by simpa using ht''
          rw [htn]; exact hget
      · intro v hvmem
        exact List.mem_cons_of_mem _ (hmono1 v hvmem)
      · intro v hvmem
        rcases List.mem_cons.mp hvmem with rfl | hvmem'
        · exact Or.inr h2
        · rcases hthird1 v hvmem' with hvs | hnp
          · exact Or.inl hvs
          · exact Or.inr (fun hp => hnp (List.mem_cons_of_mem _ hp))
      · intro _ _
        exact List.mem_cons_self _ _

end db

namespace db

theorem sortLoop_isSome (tables : List Table) :
    ∀ (order : List String) (st : SState),
      (order.foldlM (fun st name =>
        if name ∉ st.visited ∧ name ≠ "" then
          visit tables (tables.length + 1) name [] st
        else some st) st).isSome := by
  intro order
  induction order with
  | nil => intro st; rfl
  | cons k ks ihk =>
    intro st
    rw [List.foldlM_cons]
    by_cases hg : k ∉ st.visited ∧ k ≠ ""
    · rw [if_pos hg]
      have hv : (visit tables (tables.length + 1) k [] st).isSome := by
        apply visit_isSome tables (tables.length + 1) [] k st List.nodup_nil
          (by intro x hx; exact absurd hx (List.not_mem_nil x))
        have hle : (tables.map Table.Name).toFinset.card ≤ tables.length := by
          calc (tables.map Table.Name).toFinset.card
              ≤ (tables.map Table.Name).length := List.toFinset_card_le _
            _ = tables.length := List.length_map _ _
        simp only [List.length_nil]
        omega
      obtain ⟨st1, hst1⟩ := Option.isSome_iff_exists.mp hv
      rw [hst1]
      exact ihk st1
    · rw [if_neg hg]
      exact ihk st

theorem sortLoop_inv (tables : List Table) :
    ∀ (order : List String) (st st' : SState),
      (∀ k ∈ order, k ∈ tables.map Table.Name) →
      (order.foldlM (fun st name =>
        if name ∉ st.visited ∧ name ≠ "" then
          visit tables (tables.length + 1) name [] st
        else some st) st) = some st' →
      SortInv tables st →
      SortInv tables st' ∧ (∀ v ∈ st.visited, v ∈ st'.visited) ∧
      (∀ k ∈ order, k ≠ "" → k ∈ st'.visited) := by
  intro order
  induction order with
  | nil =>
    intro st st' _ h hinvs
    obtain rfl : st = st' := by injection h
    exact ⟨hinvs, fun v hv => hv, fun k hk => absurd hk (List.not_mem_nil k)⟩
  | cons k ks ihk =>
    intro st st' horder h hinvs
    rw [List.foldlM_cons] at h
    have hkmem : k ∈ tables.map Table.Name := horder k (List.mem_cons_self _ _)
    by_cases hg : k ∉ st.visited ∧ k ≠ ""
    · rw [if_pos hg] at h
      cases hmid : visit tables (tables.length + 1) k [] st with
      | none => rw [hmid] at h; exact absurd h (by simp)
      | some smid =>
        rw [hmid] at h
        replace h : (ks.foldlM (fun st name =>
            if name ∉ st.visited ∧ name ≠ "" then
              visit tables (tables.length + 1) name [] st
            else some st) smid) = some st' := h
        obtain ⟨hinvm, hmonom, -, hfourth⟩ :=
          visit_inv tables (tables.length + 1) k [] st smid hkmem hmid hinvs
        obtain ⟨hinv', hmono', hcov'⟩ := ihk smid st'
          (fun x hx => horder x (List.mem_cons_of_mem _ hx)) h hinvm
        refine ⟨hinv', fun v hv => hmono' v (hmonom v hv), fun x hx hne => ?_⟩
        rcases List.mem_cons.mp hx with rfl | hx'
        · exact hmono' x (hfourth hne (List.not_mem_nil x))
        · exact hcov' x hx' hne
    · rw [if_neg hg] at h
      replace h : (ks.foldlM (fun st name =>
          if name ∉ st.visited ∧ name ≠ "" then
            visit tables (tables.length + 1) name [] st
          else some st) st) = some st' := h
      obtain ⟨hinv', hmono', hcov'⟩ := ihk st st'
        (fun x hx => horder x (List.mem_cons_of_mem _ hx)) h hinvs
      refine ⟨hinv', hmono', fun x hx hne => ?_⟩
      rcases List.mem_cons.mp hx with rfl | hx'
      · rcases not_and_or.mp hg with hv | he
        · exact hmono' x (not_not.mp hv)
        · exact absurd (not_not.mp he) hne
      · exact hcov' x hx' hne

end db

namespace db

/-- C3 (amended): with pairwise-distinct nonempty table names (the Schema
invariant), `sortTablesByDependencies` terminates for every map iteration
order — even on cyclic, self-referential or dangling foreign-key graphs —
and returns a permutation of the input table list. -/
theorem C3_sort_terminates_and_permutes (tables : List Table) (order : List String)
    (h1 : (tables.map Table.Name).Nodup)
    (h2 : ∀ t ∈ tables, t.Name ≠ "")
    (h3 : order.Perm (tables.map Table.Name)) :
    ∃ out, sortTablesByDependencies tables order = some out ∧ out.Perm tables := by
  obtain ⟨st', hst'⟩ := Option.isSome_iff_exists.mp (sortLoop_isSome tables order ⟨[], []⟩)
  have hinv0 : SortInv tables (⟨[], []⟩ : SState) :=
    ⟨List.nodup_nil, by simp, by simp, by simp⟩
  obtain ⟨⟨hnd', hdom', hperm', hsort'⟩, -, hcov⟩ :=
    sortLoop_inv tables order ⟨[], []⟩ st' (fun k hk => h3.subset hk) hst' hinv0
  have hsubv : st'.visited ⊆ tables.map Table.Name := fun v hv => (hdom' v hv).1
  have hsubn : tables.map Table.Name ⊆ st'.visited := by
    intro n hn
    have hne : n ≠ "" := by
      rcases List.mem_map.mp hn with ⟨t, ht, rfl⟩
      exact h2 t ht
    exact hcov n (h3.mem_iff.mpr hn) hne
  have hvperm : st'.visited.Perm (tables.map Table.Name) :=
    (List.subperm_of_subset hnd' hsubv).antisymm (List.subperm_of_subset h1 hsubn)
  have hmapperm : (st'.sorted.map Table.Name).Perm (tables.map Table.Name) :=
    hperm'.trans hvperm
  have hlift := hmapperm.map (fun n => (tableMapGet tables n).getD ⟨"", []⟩)
  rw [List.map_map, List.map_map] at hlift
  have hL : st'.sorted.map ((fun n => (tableMapGet tables n).getD ⟨"", []⟩) ∘ Table.Name)
      = st'.sorted := by
    have hc : ∀ t ∈ st'.sorted,
        ((fun n => (tableMapGet tables n).getD ⟨"", []⟩) ∘ Table.Name) t = id t := by
      intro t ht
      simp [Function.comp, hsort' t ht]
    rw [List.map_congr_left hc, List.map_id]
  have hR : tables.map ((fun n => (tableMapGet tables n).getD ⟨"", []⟩) ∘ Table.Name)
      = tables := by
    have hc : ∀ t ∈ tables,
        ((fun n => (tableMapGet tables n).getD ⟨"", []⟩) ∘ Table.Name) t = id t := by
      intro t ht
      simp [Function.comp, tableMapGet_self tables t h1 ht]
    rw [List.map_congr_left hc, List.map_id]
  rw [hL, hR] at hlift
  refine ⟨st'.sorted.reverse, ?_, (st'.sorted.reverse_perm).trans hlift⟩
  unfold sortTablesByDependencies
  rw [hst']

/-- The amended C3 instantiated on the two-table foreign-key cycle: the sort
still terminates and returns both tables exactly once. -/
theorem C3_sort_witness :
    ∃ out, sortTablesByDependencies [cycleA, cycleB] ["a", "b"] = some out ∧
      out.Perm [cycleA, cycleB] :=
  C3_sort_terminates_and_permutes [cycleA, cycleB] ["a", "b"]
    (by decide) (by decide) (by decide)

end db
